import Mathlib

/-!
Syrup: resource sinks and field effects

A shallow embedding of `UResourceSink` (Source/Syrup/Tiles/Resources/ResourceSink.cpp) with the
properties of its allocation state machine, and of `UApplyField`
(Source/Syrup/Tiles/ApplyField.cpp) with the lazy resolution of its ground planes.

Conventions of the embedding.

* A `UResource*` is an `Option Nat`: `none` is `nullptr`, `some a` is the object at
  address `a`.  Dereferencing `nullptr` has no defined behaviour, so every member
  function that dereferences its argument returns an `Option`, and `none` stands for
  that undefined run.
* C++ `int` is `CInt`, the integers of the 32-bit two's complement range.  `+`, `-` and `*`
  on it are the mathematical operations reduced modulo 2^32 into that range, which is what
  the compiled code computes when an `int` operation overflows.
* The two delegates of the sink are observed through a chronological list of calls
  (`Calls`), so that "the callback fires" is a statement about that list.
-/

namespace Syrup

/-- The C++ `int` of the platforms the game is built for: a 32-bit two's complement integer. -/
structure CInt where
  toInt : Int
  inRange : -2147483648 ≤ toInt ∧ toInt < 2147483648

namespace CInt

/-- The `int` that a mathematical integer is reduced to: the value modulo 2^32 that lies in
the range of `int`.  It is the identity on the range of `int`. -/
def wrap (x : Int) : CInt :=
  ⟨(x + 2147483648) % 4294967296 - 2147483648, by omega⟩

instance instOfNat (n : Nat) : OfNat CInt n := ⟨wrap n⟩

instance instNeg : Neg CInt := ⟨fun a => wrap (-a.toInt)⟩

instance instAdd : Add CInt := ⟨fun a b => wrap (a.toInt + b.toInt)⟩

instance instSub : Sub CInt := ⟨fun a b => wrap (a.toInt - b.toInt)⟩

instance instMul : Mul CInt := ⟨fun a b => wrap (a.toInt * b.toInt)⟩

instance instLT : LT CInt := ⟨fun a b => a.toInt < b.toInt⟩

instance instLE : LE CInt := ⟨fun a b => a.toInt ≤ b.toInt⟩

instance instCoe : Coe CInt Int := ⟨toInt⟩

instance instDecidableLT (a b : CInt) : Decidable (a < b) :=
  inferInstanceAs (Decidable (a.toInt < b.toInt))

instance instDecidableLE (a b : CInt) : Decidable (a ≤ b) :=
  inferInstanceAs (Decidable (a.toInt ≤ b.toInt))

instance instDecidableEq : DecidableEq CInt := fun a b =>
  if h : a.toInt = b.toInt then
    isTrue (by cases a; cases b; cases h; rfl)
  else
    isFalse (fun hab => h (congrArg toInt hab))

instance instRepr : Repr CInt := ⟨fun a n => reprPrec a.toInt n⟩

/-- The mathematical integer `x` is a value of `int`: computing it does not overflow. -/
def InRange (x : Int) : Prop :=
  -2147483648 ≤ x ∧ x < 2147483648

instance instDecidableInRange (x : Int) : Decidable (InRange x) :=
  inferInstanceAs (Decidable (-2147483648 ≤ x ∧ x < 2147483648))

end CInt

/-- The trigger phases, `enum class ETileEffectTriggerType` of TileEffectTrigger.h. -/
inductive ETileEffectTriggerType
  | Persistent
  | PlantActive
  | TrashDamage
  | TrashActive
  | TrashSpread
  | PlantsGrow
  deriving DecidableEq, Repr

/-- Modelled from the spec: `EResourceType` is declared in Resource.h, which is not among
the sources.  The spec describes it as an enumerated resource category plus the wildcard
`Any`; the categories other than `Any` are numbered. -/
inductive EResourceType
  | Any
  | Kind (k : Nat)
  deriving DecidableEq, Repr

/-- Modelled from the spec: `FResourceSinkData` is declared in ResourceSink.h, which is not
among the sources.  The fields are the ones ResourceSink.cpp reads (with the spelling used
there) and the spec lists as the configuration surface of a sink; `AllocationType` is the
tag of an enumeration whose declaration is missing as well. -/
structure FResourceSinkData where
  IntialValue : CInt
  IncrementPerResource : CInt
  bHasMaxIncrement : Bool
  MaxIncrements : CInt
  bHasMaxIncrementmentsPerTurn : Bool
  MaxIncrementmentsPerTurn : CInt
  bDeferredIncrement : Bool
  IncrementTrigger : ETileEffectTriggerType
  AllocationType : Nat

/-- Modelled from the spec: `UResource` is declared in Resource.h, which is not among the
sources.  A resource has a type tag, the engine flag that makes `IsValid` fail on a non-null
object, and its allocation status: `none` when it is free, otherwise the address of the sink
holding it together with the allocation type it was allocated with. -/
structure UResource where
  ResourceType : EResourceType
  bPendingKill : Bool
  Allocation : Option (Nat × Nat)

/-- Modelled from the spec: `UResource::Allocate(Sink, Type)` marks the resource allocated
to the sink. -/
def UResource.Allocate (r : UResource) (Sink : Nat) (AllocationType : Nat) : UResource :=
  { r with Allocation := some (Sink, AllocationType) }

/-- Modelled from the spec: `UResource::Free()` marks the resource free. -/
def UResource.Free (r : UResource) : UResource :=
  { r with Allocation := none }

/-- One call of a delegate of the sink: `OnAmountChanged.Execute(NewAmount)`, the push to
the owner, or `EventOnAmountChanged.Broadcast(NewAmount)`, the event for the listeners. -/
inductive DelegateCall
  | OnAmountChanged (NewAmount : CInt)
  | EventOnAmountChanged (NewAmount : CInt)
  deriving DecidableEq, Repr

/-- The sink together with the part of the world its member functions read and write.

Modelled from the spec: the member declarations are in ResourceSink.h, which is not among
the sources.  `AllocatedResources` is a set of resource pointers and `IncrementsThisTurn`
an `int` counter, as the spec describes them; `RequiredResourceType` is what
`GetRequiredResourceType()` returns.  The owner keeps the realized amount: it is what
`AllocatedAmountGetter` reads (`OwnerAmount`) and what `OnAmountChanged` overwrites.
`This` is the address of the sink, `bPendingKill` makes `IsValid(this)` fail,
`bOwnerValid` is `IsValid(GetOwner())`, and `Resources` is the heap of resource objects. -/
structure UResourceSink where
  Data : FResourceSinkData
  RequiredResourceType : EResourceType
  AllocatedResources : Finset (Option Nat)
  IncrementsThisTurn : CInt
  This : Nat
  bPendingKill : Bool
  bOwnerValid : Bool
  OwnerAmount : CInt
  Resources : Nat → UResource
  Calls : List DelegateCall

namespace UResourceSink

/-- The engine's `IsValid` on a resource pointer: non-null and not marked for destruction. -/
def IsValid (s : UResourceSink) (p : Option Nat) : Bool :=
  match p with
  | none => false
  | some a => !(s.Resources a).bPendingKill

/-- The getter `GetRequiredResourceType()`. -/
def GetRequiredResourceType (s : UResourceSink) : EResourceType :=
  s.RequiredResourceType

/-- The getter `GetAllocationAmount()`: `AllocatedAmountGetter.Execute()`, the amount the
owner currently stores. -/
def GetAllocationAmount (s : UResourceSink) : CInt :=
  s.OwnerAmount

/-- The call `OnAmountChanged.Execute(NewAmount)`: the owner stores the pushed amount. -/
def OnAmountChangedExecute (s : UResourceSink) (NewAmount : CInt) : UResourceSink :=
  { s with OwnerAmount := NewAmount, Calls := s.Calls ++ [DelegateCall.OnAmountChanged NewAmount] }

/-- The call `EventOnAmountChanged.Broadcast(NewAmount)`. -/
def EventOnAmountChangedBroadcast (s : UResourceSink) (NewAmount : CInt) : UResourceSink :=
  { s with Calls := s.Calls ++ [DelegateCall.EventOnAmountChanged NewAmount] }

/-- The amount part of `UResourceSink::BeginPlay` (ResourceSink.cpp:62-68):
`OnAmountChanged.Execute(Data.IntialValue)`. -/
def BeginPlay (s : UResourceSink) : UResourceSink :=
  OnAmountChangedExecute s s.Data.IntialValue

/-- The member `UResourceSink::SetAllocationAmount` (ResourceSink.cpp:76-80). -/
def SetAllocationAmount (s : UResourceSink) (NewAmount : CInt) : UResourceSink :=
  EventOnAmountChangedBroadcast (OnAmountChangedExecute s NewAmount) NewAmount

/-- The member `UResourceSink::CanAllocateResource` (ResourceSink.cpp:89-95).  On `nullptr`
the first conjunct `IsValid(FreedResource)` is false and `&&` evaluates nothing else. -/
def CanAllocateResource (s : UResourceSink) (FreedResource : Option Nat) : Bool :=
  match FreedResource with
  | none => false
  | some a =>
    IsValid s (some a)
      && (!s.Data.bHasMaxIncrement
          || decide ((s.AllocatedResources.card : Int) < s.Data.MaxIncrements))
      && (!s.Data.bHasMaxIncrementmentsPerTurn
          || decide (s.IncrementsThisTurn < s.Data.MaxIncrementmentsPerTurn))
      && (decide ((s.Resources a).ResourceType = GetRequiredResourceType s)
          || decide ((s.Resources a).ResourceType = EResourceType.Any)
          || decide (GetRequiredResourceType s = EResourceType.Any))

/-- Lines 112-113 of ResourceSink.cpp, for the resource at address `a`:
`ResourceToAllocate->Allocate(this, Data.AllocationType)` and
`AllocatedResources.Add(ResourceToAllocate)`. -/
def addAllocated (s : UResourceSink) (a : Nat) : UResourceSink :=
  { s with
    Resources := fun x =>
      if x = a then (s.Resources a).Allocate s.This s.Data.AllocationType else s.Resources x
    AllocatedResources := insert (some a) s.AllocatedResources }

/-- Lines 141-142 of ResourceSink.cpp, for the resource at address `a`:
`FreedResource->Free()` and `AllocatedResources.Remove(FreedResource)`. -/
def removeAllocated (s : UResourceSink) (a : Nat) : UResourceSink :=
  { s with
    Resources := fun x => if x = a then (s.Resources a).Free else s.Resources x
    AllocatedResources := s.AllocatedResources.erase (some a) }

/-- The member `UResourceSink::AllocateResource` (ResourceSink.cpp:105-132).  The result is
`none` when `ResourceToAllocate->Allocate` is reached with `nullptr`. -/
def AllocateResource (s : UResourceSink) (ResourceToAllocate : Option Nat)
    (bForceAllocation : Bool) : Option (Bool × UResourceSink) :=
  if !CanAllocateResource s ResourceToAllocate && !bForceAllocation then
    some (false, s)
  else
    match ResourceToAllocate with
    | none => none
    | some a =>
      let s1 : UResourceSink := addAllocated s a
      if bForceAllocation then
        some (true, s1)
      else if s1.Data.bDeferredIncrement then
        let s2 : UResourceSink := { s1 with IncrementsThisTurn := s1.IncrementsThisTurn + 1 }
        some (true, EventOnAmountChangedBroadcast s2 (GetAllocationAmount s2))
      else
        let NewAmount : CInt := GetAllocationAmount s1 + s1.Data.IncrementPerResource
        some (true, EventOnAmountChangedBroadcast (OnAmountChangedExecute s1 NewAmount) NewAmount)

/-- The member `UResourceSink::FreeResource` (ResourceSink.cpp:139-161).  The result is
`none` when `FreedResource->Free()` is reached with `nullptr`. -/
def FreeResource (s : UResourceSink) (FreedResource : Option Nat) : Option UResourceSink :=
  match FreedResource with
  | none => none
  | some a =>
    let s1 : UResourceSink := removeAllocated s a
    if !s1.bPendingKill then
      if s1.IncrementsThisTurn ≠ 0 then
        let s2 : UResourceSink := { s1 with IncrementsThisTurn := s1.IncrementsThisTurn - 1 }
        some (EventOnAmountChangedBroadcast s2 (GetAllocationAmount s2))
      else
        let NewAmount : CInt := GetAllocationAmount s1 - s1.Data.IncrementPerResource
        let s2 : UResourceSink :=
          if s1.bOwnerValid then OnAmountChangedExecute s1 NewAmount else s1
        some (EventOnAmountChangedBroadcast s2 NewAmount)
    else
      some s1

/-- The member `UResourceSink::ReceiveEffectTrigger` (ResourceSink.cpp:170-179).  The
triggering tile and the locations are received and not used. -/
def ReceiveEffectTrigger (s : UResourceSink) (TriggerType : ETileEffectTriggerType)
    (_Triggerer : Option Nat) (_LocationsToTrigger : Finset (Int × Int)) : UResourceSink :=
  if s.Data.bDeferredIncrement && decide (TriggerType = s.Data.IncrementTrigger) then
    let NewAmount : CInt := GetAllocationAmount s + s.IncrementsThisTurn * s.Data.IncrementPerResource
    let s1 : UResourceSink := { s with IncrementsThisTurn := 0 }
    EventOnAmountChangedBroadcast (OnAmountChangedExecute s1 NewAmount) NewAmount
  else
    s

/-- One call made on a sink by its environment. -/
inductive SinkCall
  | Allocate (ResourceToAllocate : Option Nat) (bForceAllocation : Bool)
  | Free (FreedResource : Option Nat)
  | Trigger (TriggerType : ETileEffectTriggerType) (Triggerer : Option Nat)
      (LocationsToTrigger : Finset (Int × Int))

/-- The state after one call; `none` when the call has no defined behaviour. -/
def call (s : UResourceSink) : SinkCall → Option UResourceSink
  | SinkCall.Allocate r f => (AllocateResource s r f).map Prod.snd
  | SinkCall.Free r => FreeResource s r
  | SinkCall.Trigger t tr ls => some (ReceiveEffectTrigger s t tr ls)

/-- The state after a sequence of calls, made one after the other. -/
def calls (s : UResourceSink) : List SinkCall → Option UResourceSink
  | [] => some s
  | c :: cs => (call s c).bind fun s1 => calls s1 cs

/-- The state after a run of non-forced `AllocateResource` calls that all return true, one
per listed resource; `none` as soon as one of them does not return true. -/
def allocateAll (s : UResourceSink) : List (Option Nat) → Option UResourceSink
  | [] => some s
  | r :: rs =>
    match AllocateResource s r false with
    | some (true, s1) => allocateAll s1 rs
    | _ => none

/-- `AllocateResource` immediately followed by `FreeResource` of the same resource. -/
def allocateThenFree (s : UResourceSink) (r : Option Nat) (bForceAllocation : Bool) :
    Option UResourceSink :=
  (AllocateResource s r bForceAllocation).bind fun out => FreeResource out.2 r

/-- The configuration of Scenarios A and B of the spec: InitialValue 0, IncrementPerResource 2,
MaxIncrements 2, no per-turn cap, IncrementTrigger PlantActive. -/
def scenarioData (bDeferredIncrement : Bool) : FResourceSinkData :=
  { IntialValue := 0
    IncrementPerResource := 2
    bHasMaxIncrement := true
    MaxIncrements := 2
    bHasMaxIncrementmentsPerTurn := false
    MaxIncrementmentsPerTurn := 0
    bDeferredIncrement := bDeferredIncrement
    IncrementTrigger := ETileEffectTriggerType.PlantActive
    AllocationType := 0 }

/-- A sink with the given configuration right after `BeginPlay`: nothing allocated, counter 0,
sink and owner valid, and a heap in which every resource is valid, free and of kind 0. -/
def freshSink (Data : FResourceSinkData) : UResourceSink :=
  BeginPlay
    { Data := Data
      RequiredResourceType := EResourceType.Kind 0
      AllocatedResources := ∅
      IncrementsThisTurn := 0
      This := 0
      bPendingKill := false
      bOwnerValid := true
      OwnerAmount := 0
      Resources := fun _ => { ResourceType := EResourceType.Kind 0, bPendingKill := false, Allocation := none }
      Calls := [] }

/-- The sink of Scenario A (immediate mode). -/
def scenarioA : UResourceSink := freshSink (scenarioData false)

/-- The sink of Scenario B (deferred mode). -/
def scenarioB : UResourceSink := freshSink (scenarioData true)

/-- The sink of Scenario A after the allocation of resource 1. -/
def scenarioAOne : UResourceSink :=
  (allocateAll scenarioA [some 1]).getD scenarioA

/-- The sink of Scenario A after the allocation of resources 1 and 2, its cap reached. -/
def scenarioAFull : UResourceSink :=
  (allocateAll scenarioA [some 1, some 2]).getD scenarioA

/-- The sink of Scenario B after the allocation of resource 1: one pending increment. -/
def scenarioBOne : UResourceSink :=
  (allocateAll scenarioB [some 1]).getD scenarioB

/-- Whether a call is an `AllocateResource` with the force flag set. -/
def SinkCall.bForced : SinkCall → Bool
  | SinkCall.Allocate _ f => f
  | _ => false

end UResourceSink

/-! ### The sink when `AllocatedResources` is an array

ResourceSink.h is not among the sources.  The spec calls `AllocatedResources` a set, and that is
how `UResourceSink` above models it; the calls ResourceSink.cpp makes on it (`Add`, `Remove`,
`Num`) are also those of the engine array `TArray`, where `Add` appends the element even when
it is already there.  The cap on the number of allocations is the one property below that
depends on this, so the two functions it involves are given here for the array as well. -/

/-- The sink of `UResourceSink` with `AllocatedResources` held in an array: `Sink` carries
everything but the container (its own `AllocatedResources` is not used), `AllocatedResources`
is the array. -/
structure UResourceSinkWithArray where
  Sink : UResourceSink
  AllocatedResources : List (Option Nat)

namespace UResourceSinkWithArray

/-- The member `UResourceSink::CanAllocateResource` (ResourceSink.cpp:89-95), with `Num()` the
length of the array. -/
def CanAllocateResource (s : UResourceSinkWithArray) (FreedResource : Option Nat) : Bool :=
  match FreedResource with
  | none => false
  | some a =>
    s.Sink.IsValid (some a)
      && (!s.Sink.Data.bHasMaxIncrement
          || decide ((s.AllocatedResources.length : Int) < s.Sink.Data.MaxIncrements))
      && (!s.Sink.Data.bHasMaxIncrementmentsPerTurn
          || decide (s.Sink.IncrementsThisTurn < s.Sink.Data.MaxIncrementmentsPerTurn))
      && (decide ((s.Sink.Resources a).ResourceType = s.Sink.GetRequiredResourceType)
          || decide ((s.Sink.Resources a).ResourceType = EResourceType.Any)
          || decide (s.Sink.GetRequiredResourceType = EResourceType.Any))

/-- Lines 112-113 of ResourceSink.cpp for the array: the resource is marked allocated and
appended. -/
def addAllocated (s : UResourceSinkWithArray) (a : Nat) : UResourceSinkWithArray :=
  { Sink :=
      { s.Sink with
        Resources := fun x =>
          if x = a then (s.Sink.Resources a).Allocate s.Sink.This s.Sink.Data.AllocationType
          else s.Sink.Resources x }
    AllocatedResources := s.AllocatedResources ++ [some a] }

/-- The member `UResourceSink::AllocateResource` (ResourceSink.cpp:105-132) for the array.  The
result is `none` when `ResourceToAllocate->Allocate` is reached with `nullptr`. -/
def AllocateResource (s : UResourceSinkWithArray) (ResourceToAllocate : Option Nat)
    (bForceAllocation : Bool) : Option (Bool × UResourceSinkWithArray) :=
  if !CanAllocateResource s ResourceToAllocate && !bForceAllocation then
    some (false, s)
  else
    match ResourceToAllocate with
    | none => none
    | some a =>
      let s1 : UResourceSinkWithArray := addAllocated s a
      if bForceAllocation then
        some (true, s1)
      else if s1.Sink.Data.bDeferredIncrement then
        let k : UResourceSink :=
          { s1.Sink with IncrementsThisTurn := s1.Sink.IncrementsThisTurn + 1 }
        some (true, { s1 with Sink := k.EventOnAmountChangedBroadcast k.GetAllocationAmount })
      else
        let NewAmount : CInt := s1.Sink.GetAllocationAmount + s1.Sink.Data.IncrementPerResource
        some (true, { s1 with
          Sink := (s1.Sink.OnAmountChangedExecute NewAmount).EventOnAmountChangedBroadcast
            NewAmount })

/-- The state after a run of non-forced `AllocateResource` calls that all return true, one per
listed resource; `none` as soon as one of them does not return true. -/
def allocateAll (s : UResourceSinkWithArray) : List (Option Nat) → Option UResourceSinkWithArray
  | [] => some s
  | r :: rs =>
    match AllocateResource s r false with
    | some (true, s1) => allocateAll s1 rs
    | _ => none

end UResourceSinkWithArray

/-! ### UApplyField (Source/Syrup/Tiles/ApplyField.cpp) -/

/-- Modelled from the spec: `EFieldType` is declared in a header that is not among the sources.
ApplyField.h names the value `Protection`; the other field types are numbered. -/
inductive EFieldType
  | Protection
  | Other (k : Nat)
  deriving DecidableEq, Repr

/-- Modelled from the spec: `AGroundPlane`, the field propagator, is declared in
MapUtilities/GroundPlane.h, which is not among the sources.  A ground plane has the engine flag
that makes `IsValid` fail, the region it owns, and the strength of every field type at every
grid location. -/
structure AGroundPlane where
  bPendingKill : Bool
  Area : Finset (Int × Int)
  Strength : EFieldType → Int × Int → CInt

/-- The type of the member functions `AGroundPlane::ApplyField(Type, Locations)` and
`AGroundPlane::RemoveField(Type, Locations)`: they return a `bool` and may change the ground
plane they are called on.  Their bodies are not among the sources, so the functions of
`UApplyField` take them as parameters. -/
abbrev FieldMember : Type :=
  AGroundPlane → EFieldType → Finset (Int × Int) → Bool × AGroundPlane

/-- Modelled from the spec: a possible `AGroundPlane::ApplyField`, used in the concrete scenarios.
It increments the strength of the type at each of the locations and reports whether this plane
is the owner of the location set. -/
def AGroundPlane.ApplyField : FieldMember := fun pl FieldType Locations =>
  (decide (Locations ⊆ pl.Area),
    { pl with Strength := fun t x =>
        if t = FieldType ∧ x ∈ Locations then pl.Strength t x + 1 else pl.Strength t x })

/-- Modelled from the spec: a possible `AGroundPlane::RemoveField`, used in the concrete
scenarios.  It mirrors `ApplyField`, decrementing, with the strength floored at zero. -/
def AGroundPlane.RemoveField : FieldMember := fun pl FieldType Locations =>
  (decide (Locations ⊆ pl.Area),
    { pl with Strength := fun t x =>
        if t = FieldType ∧ x ∈ Locations then
          (if pl.Strength t x ≤ 0 then 0 else pl.Strength t x - 1)
        else pl.Strength t x })

/-- Which member function of a ground plane a call went to. -/
inductive EFieldMember
  | ApplyField
  | RemoveField
  deriving DecidableEq, Repr

/-- One call of a member function of the ground plane at address `Plane`. -/
structure FieldCall where
  Member : EFieldMember
  Plane : Nat
  FieldType : EFieldType
  Locations : Finset (Int × Int)
  deriving DecidableEq

/-- The world of the affecter tile.  `GroundPlanes` are its ground plane actors in the order in
which `TActorIterator<AGroundPlane>` visits them; the address of a ground plane is its position
in that sequence.  `FieldCalls` is the chronological list of the calls made on ground planes. -/
structure UWorld where
  GroundPlanes : List AGroundPlane
  FieldCalls : List FieldCall

/-- The engine's `IsValid` on a ground plane pointer: non-null, pointing at a ground plane of the
world, and not marked for destruction. -/
def UWorld.IsValid (w : UWorld) (p : Option Nat) : Bool :=
  match p with
  | none => false
  | some i =>
    match w.GroundPlanes[i]? with
    | none => false
    | some pl => !pl.bPendingKill

/-- Modelled from the spec: the engine container `TSet`, a set whose elements are visited in a
fixed order: a list without repetition. -/
structure TSet (α : Type) where
  Elements : List α
  Distinct : Elements.Nodup

/-- The member `TSet::IsEmpty()`. -/
def TSet.IsEmpty {α : Type} (s : TSet α) : Bool :=
  s.Elements.isEmpty

/-- The member `TSet::Add(Element)`: an element already in the set is not added again. -/
def TSet.Add {α : Type} [DecidableEq α] (s : TSet α) (a : α) : TSet α :=
  if h : a ∈ s.Elements then s
  else ⟨s.Elements ++ [a], List.Nodup.append s.Distinct (List.nodup_singleton a)
    (by simpa using h)⟩

/-- The effect `UApplyField`.

Modelled from the spec: ApplyField.cpp uses a member `GroundPlanes` that the header among the
sources does not declare; the spec describes it as the cached propagator set.  `FieldType` is
declared in ApplyField.h. -/
structure UApplyField where
  FieldType : EFieldType
  GroundPlanes : TSet (Option Nat)

namespace UApplyField

/-- The call of the member `F` on the ground plane at address `i`: the result of the member, and
the world with that plane updated and the call recorded.  The callers only reach it on a pointer
for which `IsValid` holds. -/
def callMember (F : FieldMember) (m : EFieldMember) (w : UWorld) (i : Nat)
    (FieldType : EFieldType) (Locations : Finset (Int × Int)) : Bool × UWorld :=
  match w.GroundPlanes[i]? with
  | none => (false, w)
  | some pl =>
    ((F pl FieldType Locations).1,
      { GroundPlanes := w.GroundPlanes.set i (F pl FieldType Locations).2
        FieldCalls := w.FieldCalls ++ [FieldCall.mk m i FieldType Locations] })

/-- The loop over `TActorIterator<AGroundPlane>` (ApplyField.cpp:22-32 and 70-80), over the
addresses still to visit: a valid ground plane is called, and the first one whose call returns
true is added to the cache and ends the loop. -/
def probeGroundPlanes (F : FieldMember) (m : EFieldMember) (FieldType : EFieldType)
    (Locations : Finset (Int × Int)) :
    List Nat → TSet (Option Nat) × UWorld → TSet (Option Nat) × UWorld
  | [], st => st
  | i :: rest, (cache, w) =>
    if w.IsValid (some i) then
      if (callMember F m w i FieldType Locations).1 then
        (cache.Add (some i), (callMember F m w i FieldType Locations).2)
      else
        probeGroundPlanes F m FieldType Locations rest
          (cache, (callMember F m w i FieldType Locations).2)
    else
      probeGroundPlanes F m FieldType Locations rest (cache, w)

/-- The loop over the cached ground planes (ApplyField.cpp:36-42 and 84-90), over the pointers
still to visit: every valid one is called, whatever the call returns. -/
def eachGroundPlane (F : FieldMember) (m : EFieldMember) (FieldType : EFieldType)
    (Locations : Finset (Int × Int)) : List (Option Nat) → UWorld → UWorld
  | [], w => w
  | none :: rest, w => eachGroundPlane F m FieldType Locations rest w
  | some i :: rest, w =>
    if w.IsValid (some i) then
      eachGroundPlane F m FieldType Locations rest (callMember F m w i FieldType Locations).2
    else
      eachGroundPlane F m FieldType Locations rest w

/-- The member `UApplyField::AffectLocations` (ApplyField.cpp:18-44), for a given body of
`AGroundPlane::ApplyField`.  The result is `none` when `AffecterTile->GetWorld()` is reached with
`nullptr`. -/
def AffectLocations (ApplyField : FieldMember) (e : UApplyField) (w : UWorld)
    (EffectedLocations : Finset (Int × Int)) (AffecterTile : Option Nat) :
    Option (UApplyField × UWorld) :=
  if e.GroundPlanes.IsEmpty then
    match AffecterTile with
    | none => none
    | some _ =>
      let out := probeGroundPlanes ApplyField EFieldMember.ApplyField e.FieldType
        EffectedLocations (List.range w.GroundPlanes.length) (e.GroundPlanes, w)
      some ({ e with GroundPlanes := out.1 }, out.2)
  else
    some (e, eachGroundPlane ApplyField EFieldMember.ApplyField e.FieldType EffectedLocations
      e.GroundPlanes.Elements w)

/-- The member `UApplyField::UnaffectLocations` (ApplyField.cpp:66-92), for a given body of
`AGroundPlane::RemoveField`.  The result is `none` when `AffecterTile->GetWorld()` is reached
with `nullptr`. -/
def UnaffectLocations (RemoveField : FieldMember) (e : UApplyField) (w : UWorld)
    (EffectedLocations : Finset (Int × Int)) (AffecterTile : Option Nat) :
    Option (UApplyField × UWorld) :=
  if e.GroundPlanes.IsEmpty then
    match AffecterTile with
    | none => none
    | some _ =>
      let out := probeGroundPlanes RemoveField EFieldMember.RemoveField e.FieldType
        EffectedLocations (List.range w.GroundPlanes.length) (e.GroundPlanes, w)
      some ({ e with GroundPlanes := out.1 }, out.2)
  else
    some (e, eachGroundPlane RemoveField EFieldMember.RemoveField e.FieldType EffectedLocations
      e.GroundPlanes.Elements w)

end UApplyField

/-! ### The lazily bound propagator, described without the loops -/

/-- The prefix of a list up to and including the first element that satisfies `p`, and the whole
list when no element does. -/
def throughFirst {α : Type} (p : α → Bool) : List α → List α
  | [] => []
  | a :: rest => if p a then [a] else a :: throughFirst p rest

/-- The addresses among `is` at which the world has a valid ground plane. -/
def UWorld.validIn (w : UWorld) (is : List Nat) : List Nat :=
  is.filter fun i => w.IsValid (some i)

/-- The valid ground planes of the world, in iteration order. -/
def UWorld.validGroundPlanes (w : UWorld) : List Nat :=
  w.validIn (List.range w.GroundPlanes.length)

/-- What the member `F` returns when it is called on the ground plane at address `i`. -/
def UWorld.accepts (w : UWorld) (F : FieldMember) (FieldType : EFieldType)
    (Locations : Finset (Int × Int)) (i : Nat) : Bool :=
  match w.GroundPlanes[i]? with
  | none => false
  | some pl => (F pl FieldType Locations).1

/-- The ground plane at address `j` once the member `F` has been called on the ground planes at
the addresses `called` and on no other. -/
def UWorld.planeAfter (w : UWorld) (F : FieldMember) (FieldType : EFieldType)
    (Locations : Finset (Int × Int)) (called : List Nat) (j : Nat) : Option AGroundPlane :=
  if j ∈ called then (w.GroundPlanes[j]?).map fun pl => (F pl FieldType Locations).2
  else w.GroundPlanes[j]?

/-- The pointers among `ps` that are valid in the world, as addresses. -/
def UWorld.validAmong (w : UWorld) (ps : List (Option Nat)) : List Nat :=
  ps.filterMap fun p => if w.IsValid p then p else none

/-- The valid cached ground planes of an effect, in the iteration order of the cache. -/
def UApplyField.validCached (e : UApplyField) (w : UWorld) : List Nat :=
  w.validAmong e.GroundPlanes.Elements

/-- The lazy resolution of the propagator by `AffectLocations` and `UnaffectLocations`, stated
for a function `run` of the effect that calls the member `F` (recorded as `m`) of ground planes.

With an empty cache and an affecter tile, `run` calls `F` with the field type of the effect and
the given locations on the valid ground planes of the world, in iteration order, up to and
including the first one on which `F` returns true, and on no other; the cache then holds exactly
that ground plane; when `F` returns true on none the effect is unchanged, with its cache still
empty, and the ground planes are unchanged too if a call of `F` that returns false leaves its
ground plane as it was; when the world has no valid ground plane nothing changes at all.

With a non-empty cache, `run` leaves the effect unchanged and calls `F` on the valid cached ground
planes, once each, and on no other. -/
def ResolvesLazily (F : FieldMember) (m : EFieldMember)
    (run : UApplyField → UWorld → Finset (Int × Int) → Option Nat →
      Option (UApplyField × UWorld)) : Prop :=
  ∀ (e : UApplyField) (w : UWorld) (L : Finset (Int × Int)),
    (e.GroundPlanes.Elements = [] → ∀ tile : Nat,
      ∃ (e1 : UApplyField) (w1 : UWorld), run e w L (some tile) = some (e1, w1)
        ∧ w1.FieldCalls = w.FieldCalls ++
            (throughFirst (w.accepts F e.FieldType L) w.validGroundPlanes).map
              (fun i => FieldCall.mk m i e.FieldType L)
        ∧ e1.GroundPlanes.Elements =
            (w.validGroundPlanes.find? (w.accepts F e.FieldType L)).toList.map some
        ∧ e1.FieldType = e.FieldType
        ∧ (∀ j, w1.GroundPlanes[j]? = w.planeAfter F e.FieldType L
            (throughFirst (w.accepts F e.FieldType L) w.validGroundPlanes) j)
        ∧ ((∀ i ∈ w.validGroundPlanes, w.accepts F e.FieldType L i = false) →
            e1 = e
              ∧ ((∀ pl : AGroundPlane, (F pl e.FieldType L).1 = false →
                    (F pl e.FieldType L).2 = pl) →
                  w1.GroundPlanes = w.GroundPlanes))
        ∧ (w.validGroundPlanes = [] → e1 = e ∧ w1 = w))
    ∧ (e.GroundPlanes.Elements ≠ [] → ∀ tile : Option Nat,
      ∃ w1 : UWorld, run e w L tile = some (e, w1)
        ∧ w1.FieldCalls = w.FieldCalls ++
            (e.validCached w).map (fun i => FieldCall.mk m i e.FieldType L)
        ∧ (∀ i : Nat, ((e.validCached w).map (fun i => FieldCall.mk m i e.FieldType L)).count
              (FieldCall.mk m i e.FieldType L)
            = if some i ∈ e.GroundPlanes.Elements ∧ w.IsValid (some i) = true then 1 else 0)
        ∧ (∀ j, w1.GroundPlanes[j]? = w.planeAfter F e.FieldType L (e.validCached w) j))

/-- The location set of the concrete scenarios of `UApplyField`. -/
def scenarioLocations : Finset (Int × Int) := {(0, 0), (1, 0)}

/-- A ground plane with no field applied. -/
def scenarioPlane (bPendingKill : Bool) (Area : Finset (Int × Int)) : AGroundPlane :=
  { bPendingKill := bPendingKill, Area := Area, Strength := fun _ _ => 0 }

/-- A world with four ground planes and no call made yet: plane 0 owns the scenario locations
and is marked for destruction, plane 1 is valid and owns other locations, planes 2 and 3 are
valid and own the scenario locations. -/
def scenarioWorld : UWorld :=
  { GroundPlanes :=
      [scenarioPlane true {(0, 0), (1, 0)}, scenarioPlane false {(5, 5)},
       scenarioPlane false {(0, 0), (1, 0), (2, 0)}, scenarioPlane false {(0, 0), (1, 0)}]
    FieldCalls := [] }

/-- A world with two valid ground planes, neither of which owns the scenario locations, and no
call made yet. -/
def scenarioRefusingWorld : UWorld :=
  { GroundPlanes := [scenarioPlane false {(5, 5)}, scenarioPlane false {(6, 6)}]
    FieldCalls := [] }

/-- A protection effect that has not resolved its ground plane yet. -/
def scenarioEffect : UApplyField :=
  { FieldType := EFieldType.Protection, GroundPlanes := ⟨[], List.nodup_nil⟩ }

/-- A protection effect that has resolved its ground plane to plane 2. -/
def scenarioBoundEffect : UApplyField :=
  { FieldType := EFieldType.Protection, GroundPlanes := ⟨[some 2], List.nodup_singleton _⟩ }

open UResourceSink

/-! ## The arithmetic of `int` -/

theorem CInt.ext (a b : CInt) (h : a.toInt = b.toInt) : a = b := by
  cases a; cases b; cases h; rfl

theorem CInt.toInt_zero : (0 : CInt).toInt = 0 := rfl

theorem CInt.toInt_one : (1 : CInt).toInt = 1 := rfl

theorem CInt.toInt_add (a b : CInt) :
    (a + b).toInt = (a.toInt + b.toInt + 2147483648) % 4294967296 - 2147483648 := rfl

theorem CInt.toInt_sub (a b : CInt) :
    (a - b).toInt = (a.toInt - b.toInt + 2147483648) % 4294967296 - 2147483648 := rfl

theorem CInt.toInt_mul (a b : CInt) :
    (a * b).toInt = (a.toInt * b.toInt + 2147483648) % 4294967296 - 2147483648 := rfl

theorem CInt.le_def (a b : CInt) : a ≤ b ↔ a.toInt ≤ b.toInt := Iff.rfl

theorem CInt.lt_def (a b : CInt) : a < b ↔ a.toInt < b.toInt := Iff.rfl

/-- An `int` sum that lies in the range of `int` is the mathematical sum. -/
theorem CInt.toInt_add_of_inRange (a b : CInt)
    (h : -2147483648 ≤ a.toInt + b.toInt ∧ a.toInt + b.toInt < 2147483648) :
    (a + b).toInt = a.toInt + b.toInt := by
  rw [CInt.toInt_add]; omega

/-- An `int` difference that lies in the range of `int` is the mathematical difference. -/
theorem CInt.toInt_sub_of_inRange (a b : CInt)
    (h : -2147483648 ≤ a.toInt - b.toInt ∧ a.toInt - b.toInt < 2147483648) :
    (a - b).toInt = a.toInt - b.toInt := by
  rw [CInt.toInt_sub]; omega

/-- When `a + c * i` lies in the range of `int`, the `int` expression `a + c * i` has that
value, also when the product alone leaves the range. -/
theorem CInt.toInt_add_mul_of_inRange (a c i : CInt)
    (h : -2147483648 ≤ a.toInt + c.toInt * i.toInt
      ∧ a.toInt + c.toInt * i.toInt < 2147483648) :
    (a + c * i).toInt = a.toInt + c.toInt * i.toInt := by
  rw [CInt.toInt_add, CInt.toInt_mul]; omega

/-- Subtracting what was added gives the `int` one started from, overflow or not. -/
theorem CInt.add_sub_cancel (a b : CInt) : a + b - b = a := by
  apply CInt.ext
  have ha := a.inRange
  rw [CInt.toInt_sub, CInt.toInt_add]
  omega

/-- Incrementing a non-negative `int` never gives 0. -/
theorem CInt.add_one_ne_zero (a : CInt) (h : 0 ≤ a) : a + 1 ≠ 0 := by
  intro hz
  have h1 := congrArg CInt.toInt hz
  have h2 : 0 ≤ a.toInt := by
    have := (CInt.le_def 0 a).mp h
    rwa [CInt.toInt_zero] at this
  have ha := a.inRange
  rw [CInt.toInt_add, CInt.toInt_one, CInt.toInt_zero] at h1
  omega

/-! ## CanAllocateResource -/

/-- C1: `CanAllocateResource` returns true if and only if the resource is valid, no total cap
is configured or fewer than `MaxIncrements` resources are allocated, no per-turn cap is
configured or `IncrementsThisTurn` is below `MaxIncrementmentsPerTurn`, and the type of the
resource equals the required type of the sink or one of the two is `Any`. -/
theorem CanAllocateResource_iff (s : UResourceSink) (r : Option Nat) :
    CanAllocateResource s r = true ↔
      (IsValid s r = true
        ∧ (s.Data.bHasMaxIncrement = false
            ∨ (s.AllocatedResources.card : Int) < s.Data.MaxIncrements)
        ∧ (s.Data.bHasMaxIncrementmentsPerTurn = false
            ∨ s.IncrementsThisTurn < s.Data.MaxIncrementmentsPerTurn)
        ∧ ∃ a, r = some a
            ∧ ((s.Resources a).ResourceType = GetRequiredResourceType s
                ∨ (s.Resources a).ResourceType = EResourceType.Any
                ∨ GetRequiredResourceType s = EResourceType.Any)) := by
  cases r with
  | none => simp [CanAllocateResource, IsValid]
  | some a =>
    simp only [CanAllocateResource, Bool.and_eq_true, Bool.or_eq_true, Bool.not_eq_true',
      decide_eq_true_eq, Option.some.injEq, exists_eq_left']
    tauto

/-! ## AllocateResource -/

theorem CanAllocateResource_none (s : UResourceSink) : CanAllocateResource s none = false := rfl

theorem AllocateResource_reject (s : UResourceSink) (r : Option Nat)
    (h : CanAllocateResource s r = false) : AllocateResource s r false = some (false, s) := by
  simp [AllocateResource, h]

theorem AllocateResource_forced (s : UResourceSink) (a : Nat) :
    AllocateResource s (some a) true = some (true, addAllocated s a) := by
  simp [AllocateResource]

theorem AllocateResource_forced_null (s : UResourceSink) :
    AllocateResource s none true = none := by
  simp [AllocateResource]

theorem AllocateResource_eq_of_deferred (s : UResourceSink) (a : Nat)
    (h : CanAllocateResource s (some a) = true) (hd : s.Data.bDeferredIncrement = true) :
    AllocateResource s (some a) false
      = some (true, EventOnAmountChangedBroadcast
          { addAllocated s a with IncrementsThisTurn := s.IncrementsThisTurn + 1 }
          (GetAllocationAmount s)) := by
  simp [AllocateResource, h, addAllocated, hd, GetAllocationAmount]

theorem AllocateResource_eq_of_immediate (s : UResourceSink) (a : Nat)
    (h : CanAllocateResource s (some a) = true) (hd : s.Data.bDeferredIncrement = false) :
    AllocateResource s (some a) false
      = some (true, EventOnAmountChangedBroadcast
          (OnAmountChangedExecute (addAllocated s a)
            (GetAllocationAmount s + s.Data.IncrementPerResource))
          (GetAllocationAmount s + s.Data.IncrementPerResource)) := by
  simp [AllocateResource, h, addAllocated, hd, GetAllocationAmount]

/-- A non-forced `AllocateResource` returns true only for a non-null resource that
`CanAllocateResource` accepts. -/
theorem AllocateResource_true_inv (s t : UResourceSink) (r : Option Nat)
    (h : AllocateResource s r false = some (true, t)) :
    ∃ a, r = some a ∧ CanAllocateResource s (some a) = true := by
  cases hc : CanAllocateResource s r with
  | false => rw [AllocateResource_reject s r hc] at h; simp at h
  | true =>
    cases r with
    | none => simp [CanAllocateResource_none] at hc
    | some a => exact ⟨a, rfl, hc⟩

/-- A non-forced `AllocateResource` that returns false has changed nothing and was refused
by `CanAllocateResource`. -/
theorem AllocateResource_false_inv (s t : UResourceSink) (r : Option Nat)
    (h : AllocateResource s r false = some (false, t)) :
    t = s ∧ CanAllocateResource s r = false := by
  cases hc : CanAllocateResource s r with
  | false =>
    rw [AllocateResource_reject s r hc] at h
    simp only [Option.some.injEq, Prod.mk.injEq, true_and] at h
    exact ⟨h.symm, rfl⟩
  | true =>
    cases r with
    | none => simp [CanAllocateResource_none] at hc
    | some a =>
      cases hd : s.Data.bDeferredIncrement with
      | true => simp [AllocateResource_eq_of_deferred s a hc hd] at h
      | false => simp [AllocateResource_eq_of_immediate s a hc hd] at h

/-- With a total cap configured, `CanAllocateResource` accepts a resource only while fewer than
`MaxIncrements` resources are allocated. -/
theorem CanAllocateResource_below_cap (s : UResourceSink) (r : Option Nat)
    (hcap : s.Data.bHasMaxIncrement = true) (hc : CanAllocateResource s r = true) :
    (s.AllocatedResources.card : Int) < s.Data.MaxIncrements := by
  cases r with
  | none => simp [CanAllocateResource_none] at hc
  | some a =>
    simp only [CanAllocateResource, hcap, Bool.not_true, Bool.false_or, Bool.and_eq_true,
      decide_eq_true_eq] at hc
    exact hc.1.1.2

/-- C2: `AllocateResource` returns false exactly when `CanAllocateResource` is false and the
force flag is false, and a call that returns false leaves the whole state as it was: the
allocation set, `IncrementsThisTurn`, the amount, the heap of resources (so the allocation
status of the resource) and the list of delegate calls (so neither delegate fires). -/
theorem AllocateResource_false_iff (s t : UResourceSink) (r : Option Nat) (bForce : Bool) :
    ((∃ u, AllocateResource s r bForce = some (false, u))
        ↔ (CanAllocateResource s r = false ∧ bForce = false))
      ∧ (AllocateResource s r bForce = some (false, t)
        ↔ (CanAllocateResource s r = false ∧ bForce = false ∧ t = s)) := by
  have key : ∀ u, AllocateResource s r bForce = some (false, u)
      ↔ (CanAllocateResource s r = false ∧ bForce = false ∧ u = s) := by
    intro u
    cases bForce with
    | true =>
      cases r with
      | none => simp [AllocateResource_forced_null]
      | some a => simp [AllocateResource_forced]
    | false =>
      cases hc : CanAllocateResource s r with
      | false => simp [AllocateResource_reject s r hc, eq_comm]
      | true =>
        cases r with
        | none => simp [CanAllocateResource_none] at hc
        | some a =>
          cases hd : s.Data.bDeferredIncrement with
          | true => simp [AllocateResource_eq_of_deferred s a hc hd]
          | false => simp [AllocateResource_eq_of_immediate s a hc hd]
  refine ⟨?_, key t⟩
  constructor
  · rintro ⟨u, hu⟩
    exact ⟨((key u).mp hu).1, ((key u).mp hu).2.1⟩
  · rintro ⟨h1, h2⟩
    exact ⟨s, (key s).mpr ⟨h1, h2, rfl⟩⟩

/-- C3, as stated, fails where the `int` sum overflows: on an immediate sink whose amount is
2147483647, with IncrementPerResource 1, a non-forced `AllocateResource` returns true and the
amount pushed and broadcast is -2147483648, not 2147483647 + 1. -/
theorem AllocateResource_immediate_overflow :
    ∃ t : UResourceSink,
      AllocateResource
          (freshSink { scenarioData false with
            IntialValue := 2147483647, IncrementPerResource := 1 })
          (some 1) false = some (true, t)
        ∧ (GetAllocationAmount
            (freshSink { scenarioData false with
              IntialValue := 2147483647, IncrementPerResource := 1 })).toInt = 2147483647
        ∧ (freshSink { scenarioData false with
              IntialValue := 2147483647, IncrementPerResource := 1 }).Data.IncrementPerResource.toInt
            = 1
        ∧ (GetAllocationAmount t).toInt = -2147483648
        ∧ (GetAllocationAmount t).toInt ≠ 2147483647 + 1
        ∧ t.Calls = [DelegateCall.OnAmountChanged 2147483647,
            DelegateCall.OnAmountChanged (-2147483648),
            DelegateCall.EventOnAmountChanged (-2147483648)] :=
  ⟨_, rfl, by decide, by decide, by decide, by decide, by decide⟩

/-- C3, amended: in immediate mode a non-forced `AllocateResource` that returns true makes the
amount the `int` sum of the previous amount and `IncrementPerResource`, which is exactly the
previous amount plus `IncrementPerResource` whenever that sum lies in the range of `int`; it
calls `OnAmountChanged` and then `EventOnAmountChanged` with the new amount and nothing else,
leaves the resource in the allocation set and leaves `IncrementsThisTurn` as it was.
Scenario A: from InitialValue 0 with IncrementPerResource 2 and MaxIncrements 2, allocating
resources 1 and 2 gives the amounts 2 and 4, and allocating resource 3 returns false and
changes nothing. -/
theorem AllocateResource_immediate :
    (∀ (s t : UResourceSink) (r : Option Nat),
        s.Data.bDeferredIncrement = false →
        AllocateResource s r false = some (true, t) →
        GetAllocationAmount t = GetAllocationAmount s + s.Data.IncrementPerResource
          ∧ (CInt.InRange
                ((GetAllocationAmount s).toInt + s.Data.IncrementPerResource.toInt) →
              (GetAllocationAmount t).toInt
                = (GetAllocationAmount s).toInt + s.Data.IncrementPerResource.toInt)
          ∧ t.Calls = s.Calls ++
              [DelegateCall.OnAmountChanged (GetAllocationAmount t),
               DelegateCall.EventOnAmountChanged (GetAllocationAmount t)]
          ∧ r ∈ t.AllocatedResources
          ∧ t.IncrementsThisTurn = s.IncrementsThisTurn)
      ∧ (∃ s1 s2 : UResourceSink,
          GetAllocationAmount scenarioA = 0
            ∧ AllocateResource scenarioA (some 1) false = some (true, s1)
            ∧ GetAllocationAmount s1 = 2
            ∧ AllocateResource s1 (some 2) false = some (true, s2)
            ∧ GetAllocationAmount s2 = 4
            ∧ CanAllocateResource s2 (some 3) = false
            ∧ AllocateResource s2 (some 3) false = some (false, s2)) := by
  refine ⟨?_, ⟨_, _, rfl, rfl, rfl, rfl, rfl, rfl, rfl⟩⟩
  intro s t r hd h
  obtain ⟨a, rfl, hc⟩ := AllocateResource_true_inv s t r h
  rw [AllocateResource_eq_of_immediate s a hc hd] at h
  simp only [Option.some.injEq, Prod.mk.injEq, true_and] at h
  subst h
  refine ⟨rfl, ?_, ?_, ?_, rfl⟩
  · intro hr
    exact CInt.toInt_add_of_inRange _ _ hr
  · simp [EventOnAmountChangedBroadcast, OnAmountChangedExecute, addAllocated,
      GetAllocationAmount]
  · simp [EventOnAmountChangedBroadcast, OnAmountChangedExecute, addAllocated]

/-- The witness of amended C3 at the first allocation of Scenario A. -/
theorem AllocateResource_immediate_witness :
    ∃ t : UResourceSink, AllocateResource scenarioA (some 1) false = some (true, t)
      ∧ GetAllocationAmount t = 2
      ∧ (GetAllocationAmount t).toInt = 0 + 2
      ∧ t.Calls = [DelegateCall.OnAmountChanged 0, DelegateCall.OnAmountChanged 2,
          DelegateCall.EventOnAmountChanged 2]
      ∧ some 1 ∈ t.AllocatedResources
      ∧ t.IncrementsThisTurn = 0 := by
  have h := AllocateResource_immediate.1 scenarioA _ (some 1) rfl rfl
  exact ⟨_, rfl, h.1, h.2.1 (by decide), h.2.2.1, h.2.2.2.1, h.2.2.2.2⟩

/-- C4, as stated, fails where the `int` increment overflows: on the deferred sink of Scenario B
with `IncrementsThisTurn` at 2147483647, a non-forced `AllocateResource` returns true and
leaves `IncrementsThisTurn` at -2147483648, not at 2147483647 + 1. -/
theorem AllocateResource_deferred_overflow :
    ∃ t : UResourceSink,
      AllocateResource { scenarioB with IncrementsThisTurn := 2147483647 } (some 1) false
          = some (true, t)
        ∧ scenarioB.Data.bDeferredIncrement = true
        ∧ t.IncrementsThisTurn.toInt = -2147483648
        ∧ t.IncrementsThisTurn.toInt ≠ 2147483647 + 1 :=
  ⟨_, rfl, rfl, by decide, by decide⟩

/-- C4, amended: in deferred mode `AllocateResource` never changes the amount and never calls
`OnAmountChanged`, whatever the resource and the force flag; a non-forced call that returns
true makes `IncrementsThisTurn` its `int` successor, which is exactly `IncrementsThisTurn`
plus 1 whenever `IncrementsThisTurn` is below 2147483647, the largest `int`, and its only
delegate call is the broadcast of the current, unchanged amount. -/
theorem AllocateResource_deferred (s t : UResourceSink) (r : Option Nat) (bForce b : Bool)
    (hd : s.Data.bDeferredIncrement = true)
    (h : AllocateResource s r bForce = some (b, t)) :
    GetAllocationAmount t = GetAllocationAmount s
      ∧ (∃ l, t.Calls = s.Calls ++ l ∧ ∀ n, DelegateCall.OnAmountChanged n ∉ l)
      ∧ (bForce = false → b = true →
          t.IncrementsThisTurn = s.IncrementsThisTurn + 1
            ∧ (s.IncrementsThisTurn.toInt < 2147483647 →
                t.IncrementsThisTurn.toInt = s.IncrementsThisTurn.toInt + 1)
            ∧ t.Calls = s.Calls ++ [DelegateCall.EventOnAmountChanged (GetAllocationAmount s)]
            ∧ GetAllocationAmount t = GetAllocationAmount s) := by
  cases bForce with
  | true =>
    cases r with
    | none => simp [AllocateResource_forced_null] at h
    | some a =>
      rw [AllocateResource_forced] at h
      simp only [Option.some.injEq, Prod.mk.injEq] at h
      obtain ⟨-, rfl⟩ := h
      exact ⟨rfl, ⟨[], by simp [addAllocated], by simp⟩, by simp⟩
  | false =>
    cases hc : CanAllocateResource s r with
    | false =>
      rw [AllocateResource_reject s r hc] at h
      simp only [Option.some.injEq, Prod.mk.injEq] at h
      obtain ⟨rfl, rfl⟩ := h
      exact ⟨rfl, ⟨[], by simp, by simp⟩, by simp⟩
    | true =>
      cases r with
      | none => simp [CanAllocateResource_none] at hc
      | some a =>
        rw [AllocateResource_eq_of_deferred s a hc hd] at h
        simp only [Option.some.injEq, Prod.mk.injEq] at h
        obtain ⟨-, rfl⟩ := h
        refine ⟨rfl, ⟨[DelegateCall.EventOnAmountChanged (GetAllocationAmount s)], ?_, ?_⟩, ?_⟩
        · simp [EventOnAmountChangedBroadcast, addAllocated]
        · simp
        · intro _ _
          refine ⟨rfl, ?_, ?_, rfl⟩
          · intro hlt
            have hlo := s.IncrementsThisTurn.inRange
            show (s.IncrementsThisTurn + 1).toInt = s.IncrementsThisTurn.toInt + 1
            rw [CInt.toInt_add, CInt.toInt_one]
            omega
          · simp [EventOnAmountChangedBroadcast, addAllocated]

/-- The witness of amended C4 at the first allocation of Scenario B. -/
theorem AllocateResource_deferred_witness :
    ∃ t : UResourceSink, AllocateResource scenarioB (some 1) false = some (true, t)
      ∧ GetAllocationAmount t = 0
      ∧ t.IncrementsThisTurn = 1
      ∧ t.IncrementsThisTurn.toInt = 0 + 1
      ∧ t.Calls = [DelegateCall.OnAmountChanged 0, DelegateCall.EventOnAmountChanged 0] := by
  have h := AllocateResource_deferred scenarioB _ (some 1) false true rfl rfl
  exact ⟨_, rfl, h.1, (h.2.2 rfl rfl).1, (h.2.2 rfl rfl).2.1 (by decide),
    (h.2.2 rfl rfl).2.2.1⟩

/-! ## ReceiveEffectTrigger -/

/-- C5, as stated, fails where the `int` expression overflows: on a deferred sink with amount
0, IncrementPerResource 65536 and `IncrementsThisTurn` at 65536, the trigger of the configured
phase pushes and broadcasts 0, not 0 + 65536 * 65536. -/
theorem ReceiveEffectTrigger_overflow :
    (freshSink { scenarioData true with IncrementPerResource := 65536 }).Data.bDeferredIncrement
        = true
      ∧ (GetAllocationAmount
          (freshSink { scenarioData true with IncrementPerResource := 65536 })).toInt = 0
      ∧ (GetAllocationAmount
          (ReceiveEffectTrigger
            { freshSink { scenarioData true with IncrementPerResource := 65536 } with
              IncrementsThisTurn := 65536 }
            ETileEffectTriggerType.PlantActive none ∅)).toInt = 0
      ∧ (GetAllocationAmount
          (ReceiveEffectTrigger
            { freshSink { scenarioData true with IncrementPerResource := 65536 } with
              IncrementsThisTurn := 65536 }
            ETileEffectTriggerType.PlantActive none ∅)).toInt ≠ 0 + 65536 * 65536
      ∧ (ReceiveEffectTrigger
            { freshSink { scenarioData true with IncrementPerResource := 65536 } with
              IncrementsThisTurn := 65536 }
            ETileEffectTriggerType.PlantActive none ∅).Calls
          = [DelegateCall.OnAmountChanged 0, DelegateCall.OnAmountChanged 0,
              DelegateCall.EventOnAmountChanged 0] :=
  ⟨rfl, by decide, by decide, by decide, by decide⟩

/-- C5, amended: in deferred mode and at the phase `IncrementTrigger`, `ReceiveEffectTrigger`
makes the amount the `int` value of previous amount plus
`IncrementsThisTurn * IncrementPerResource`, which is exactly that number whenever it lies in
the range of `int`, pushes and broadcasts the new amount, and sets `IncrementsThisTurn` to 0
whatever it was; in every other case the state is unchanged, delegate calls included.
Scenario B: deferred, IncrementPerResource 2, IncrementTrigger PlantActive; after allocating
resources 1 and 2 the amount is still InitialValue and the counter is 2, and after the
PlantActive trigger the amount is InitialValue + 4 and the counter is 0. -/
theorem ReceiveEffectTrigger_spec :
    (∀ (s : UResourceSink) (t : ETileEffectTriggerType) (Triggerer : Option Nat)
        (ls : Finset (Int × Int)),
        (s.Data.bDeferredIncrement = true ∧ t = s.Data.IncrementTrigger →
          GetAllocationAmount (ReceiveEffectTrigger s t Triggerer ls)
              = GetAllocationAmount s + s.IncrementsThisTurn * s.Data.IncrementPerResource
            ∧ (CInt.InRange ((GetAllocationAmount s).toInt
                  + s.IncrementsThisTurn.toInt * s.Data.IncrementPerResource.toInt) →
                (GetAllocationAmount (ReceiveEffectTrigger s t Triggerer ls)).toInt
                  = (GetAllocationAmount s).toInt
                    + s.IncrementsThisTurn.toInt * s.Data.IncrementPerResource.toInt)
            ∧ (ReceiveEffectTrigger s t Triggerer ls).Calls = s.Calls ++
                [DelegateCall.OnAmountChanged
                   (GetAllocationAmount (ReceiveEffectTrigger s t Triggerer ls)),
                 DelegateCall.EventOnAmountChanged
                   (GetAllocationAmount (ReceiveEffectTrigger s t Triggerer ls))]
            ∧ (ReceiveEffectTrigger s t Triggerer ls).IncrementsThisTurn = 0)
          ∧ (¬ (s.Data.bDeferredIncrement = true ∧ t = s.Data.IncrementTrigger) →
              ReceiveEffectTrigger s t Triggerer ls = s))
      ∧ (∃ s1 s2 : UResourceSink,
          AllocateResource scenarioB (some 1) false = some (true, s1)
            ∧ AllocateResource s1 (some 2) false = some (true, s2)
            ∧ GetAllocationAmount s2 = scenarioB.Data.IntialValue
            ∧ s2.IncrementsThisTurn = 2
            ∧ GetAllocationAmount
                (ReceiveEffectTrigger s2 ETileEffectTriggerType.PlantActive none ∅)
                = scenarioB.Data.IntialValue + 4
            ∧ (ReceiveEffectTrigger s2 ETileEffectTriggerType.PlantActive none ∅).IncrementsThisTurn
                = 0) := by
  refine ⟨?_, ⟨_, _, rfl, rfl, rfl, rfl, rfl, rfl⟩⟩
  intro s t Triggerer ls
  constructor
  · rintro ⟨hd, rfl⟩
    have hrun : ReceiveEffectTrigger s s.Data.IncrementTrigger Triggerer ls
        = EventOnAmountChangedBroadcast
            (OnAmountChangedExecute { s with IncrementsThisTurn := 0 }
              (GetAllocationAmount s + s.IncrementsThisTurn * s.Data.IncrementPerResource))
            (GetAllocationAmount s + s.IncrementsThisTurn * s.Data.IncrementPerResource) := by
      simp [ReceiveEffectTrigger, hd]
    rw [hrun]
    refine ⟨rfl, ?_, ?_, rfl⟩
    · intro hr
      exact CInt.toInt_add_mul_of_inRange _ _ _ hr
    · simp [EventOnAmountChangedBroadcast, OnAmountChangedExecute, GetAllocationAmount]
  · intro h
    unfold ReceiveEffectTrigger
    rw [if_neg]
    simpa using h

/-- The witness of amended C5: the PlantActive trigger on the sink of Scenario B with a counter
of 5, and a trigger of another phase. -/
theorem ReceiveEffectTrigger_spec_witness :
    (GetAllocationAmount
        (ReceiveEffectTrigger { scenarioB with IncrementsThisTurn := 5 }
          ETileEffectTriggerType.PlantActive none ∅)).toInt = 0 + 5 * 2
      ∧ (ReceiveEffectTrigger { scenarioB with IncrementsThisTurn := 5 }
          ETileEffectTriggerType.PlantActive none ∅).IncrementsThisTurn = 0
      ∧ ReceiveEffectTrigger scenarioB ETileEffectTriggerType.TrashSpread none ∅ = scenarioB := by
  have h := (ReceiveEffectTrigger_spec.1 { scenarioB with IncrementsThisTurn := 5 }
    ETileEffectTriggerType.PlantActive none ∅).1 ⟨rfl, rfl⟩
  have h2 := (ReceiveEffectTrigger_spec.1 scenarioB ETileEffectTriggerType.TrashSpread none ∅).2
    (by decide)
  exact ⟨h.2.1 (by decide), h.2.2.2, h2⟩

/-! ## FreeResource -/

theorem FreeResource_null (s : UResourceSink) : FreeResource s none = none := rfl

theorem FreeResource_pending (s : UResourceSink) (a : Nat) (hv : s.bPendingKill = true) :
    FreeResource s (some a) = some (removeAllocated s a) := by
  simp [FreeResource, removeAllocated, hv]

theorem FreeResource_counter (s : UResourceSink) (a : Nat) (hv : s.bPendingKill = false)
    (hn : s.IncrementsThisTurn ≠ 0) :
    FreeResource s (some a)
      = some (EventOnAmountChangedBroadcast
          { removeAllocated s a with IncrementsThisTurn := s.IncrementsThisTurn - 1 }
          (GetAllocationAmount s)) := by
  simp [FreeResource, removeAllocated, hv, hn, GetAllocationAmount]

theorem FreeResource_amount (s : UResourceSink) (a : Nat) (hv : s.bPendingKill = false)
    (hn : s.IncrementsThisTurn = 0) (ho : s.bOwnerValid = true) :
    FreeResource s (some a)
      = some (EventOnAmountChangedBroadcast
          (OnAmountChangedExecute (removeAllocated s a)
            (GetAllocationAmount s - s.Data.IncrementPerResource))
          (GetAllocationAmount s - s.Data.IncrementPerResource)) := by
  simp [FreeResource, removeAllocated, hv, hn, ho, GetAllocationAmount]

theorem FreeResource_amount_no_owner (s : UResourceSink) (a : Nat)
    (hv : s.bPendingKill = false) (hn : s.IncrementsThisTurn = 0)
    (ho : s.bOwnerValid = false) :
    FreeResource s (some a)
      = some (EventOnAmountChangedBroadcast (removeAllocated s a)
          (GetAllocationAmount s - s.Data.IncrementPerResource)) := by
  simp [FreeResource, removeAllocated, hv, hn, ho, GetAllocationAmount]

/-- C6, as stated, fails where the `int` operations overflow.  (1) Resource 1 is allocated to
the immediate sink of Scenario A and the amount of the owner is -2147483648: `FreeResource`
pushes and broadcasts 2147483646, not -2147483648 - 2.  (2) Resource 1 is allocated to the
deferred sink of Scenario B and `IncrementsThisTurn` is -2147483648: `FreeResource` leaves it
at 2147483647, not at -2147483648 - 1. -/
theorem FreeResource_overflow :
    (∃ t : UResourceSink,
        FreeResource { scenarioAOne with OwnerAmount := -2147483648 } (some 1) = some t
          ∧ scenarioAOne.bPendingKill = false
          ∧ scenarioAOne.IncrementsThisTurn = 0
          ∧ scenarioAOne.Data.IncrementPerResource.toInt = 2
          ∧ (GetAllocationAmount t).toInt = 2147483646
          ∧ (GetAllocationAmount t).toInt ≠ -2147483648 - 2
          ∧ t.Calls = scenarioAOne.Calls ++
              [DelegateCall.OnAmountChanged 2147483646,
               DelegateCall.EventOnAmountChanged 2147483646])
      ∧ (∃ t : UResourceSink,
          FreeResource { scenarioBOne with IncrementsThisTurn := -2147483648 } (some 1) = some t
            ∧ scenarioBOne.bPendingKill = false
            ∧ t.IncrementsThisTurn.toInt = 2147483647
            ∧ t.IncrementsThisTurn.toInt ≠ -2147483648 - 1) :=
  ⟨⟨_, rfl, rfl, rfl, by decide, by decide, by decide, by decide⟩,
    ⟨_, rfl, rfl, by decide, by decide⟩⟩

/-- C6, amended: on a valid sink `FreeResource` marks the resource free and removes it from the
allocation set.  When `IncrementsThisTurn` is not 0 it makes it its `int` predecessor, which is
exactly `IncrementsThisTurn` minus 1 whenever `IncrementsThisTurn` is above -2147483648, the
smallest `int`, leaves the amount, does not call `OnAmountChanged` and broadcasts the amount.
Otherwise it leaves `IncrementsThisTurn` at 0 and broadcasts the `int` difference of the
previous amount and `IncrementPerResource`, which is exactly the previous amount minus
`IncrementPerResource` whenever that difference lies in the range of `int`, and it pushes that
value through `OnAmountChanged` exactly when the owner is valid. -/
theorem FreeResource_spec (s : UResourceSink) (a : Nat) (hv : s.bPendingKill = false) :
    ∃ t : UResourceSink, FreeResource s (some a) = some t
      ∧ (t.Resources a).Allocation = none
      ∧ some a ∉ t.AllocatedResources
      ∧ t.AllocatedResources = s.AllocatedResources.erase (some a)
      ∧ (s.IncrementsThisTurn ≠ 0 →
          t.IncrementsThisTurn = s.IncrementsThisTurn - 1
            ∧ (-2147483648 < s.IncrementsThisTurn.toInt →
                t.IncrementsThisTurn.toInt = s.IncrementsThisTurn.toInt - 1)
            ∧ GetAllocationAmount t = GetAllocationAmount s
            ∧ t.Calls = s.Calls ++ [DelegateCall.EventOnAmountChanged (GetAllocationAmount s)])
      ∧ (s.IncrementsThisTurn = 0 →
          t.IncrementsThisTurn = 0
            ∧ (CInt.InRange
                  ((GetAllocationAmount s).toInt - s.Data.IncrementPerResource.toInt) →
                (GetAllocationAmount s - s.Data.IncrementPerResource).toInt
                  = (GetAllocationAmount s).toInt - s.Data.IncrementPerResource.toInt)
            ∧ (s.bOwnerValid = true →
                GetAllocationAmount t = GetAllocationAmount s - s.Data.IncrementPerResource
                  ∧ t.Calls = s.Calls ++
                    [DelegateCall.OnAmountChanged
                       (GetAllocationAmount s - s.Data.IncrementPerResource),
                     DelegateCall.EventOnAmountChanged
                       (GetAllocationAmount s - s.Data.IncrementPerResource)])
            ∧ (s.bOwnerValid = false →
                GetAllocationAmount t = GetAllocationAmount s
                  ∧ t.Calls = s.Calls ++
                    [DelegateCall.EventOnAmountChanged
                       (GetAllocationAmount s - s.Data.IncrementPerResource)])) := by
  have hpred : -2147483648 < s.IncrementsThisTurn.toInt →
      (s.IncrementsThisTurn - 1).toInt = s.IncrementsThisTurn.toInt - 1 := by
    intro hlo
    have hr := s.IncrementsThisTurn.inRange
    rw [CInt.toInt_sub, CInt.toInt_one]
    omega
  have hdiff : CInt.InRange
        ((GetAllocationAmount s).toInt - s.Data.IncrementPerResource.toInt) →
      (GetAllocationAmount s - s.Data.IncrementPerResource).toInt
        = (GetAllocationAmount s).toInt - s.Data.IncrementPerResource.toInt :=
    fun hr => CInt.toInt_sub_of_inRange _ _ hr
  by_cases hn : s.IncrementsThisTurn = 0
  · cases ho : s.bOwnerValid with
    | true =>
      refine ⟨_, FreeResource_amount s a hv hn ho, ?_, ?_, rfl, ?_, ?_⟩
      · simp [EventOnAmountChangedBroadcast, OnAmountChangedExecute, removeAllocated,
          UResource.Free]
      · simp [EventOnAmountChangedBroadcast, OnAmountChangedExecute, removeAllocated]
      · intro hne; exact absurd hn hne
      · intro _
        refine ⟨hn, hdiff, ?_, ?_⟩
        · intro _
          refine ⟨rfl, ?_⟩
          simp [EventOnAmountChangedBroadcast, OnAmountChangedExecute, removeAllocated]
        · intro hf; cases hf
    | false =>
      refine ⟨_, FreeResource_amount_no_owner s a hv hn ho, ?_, ?_, rfl, ?_, ?_⟩
      · simp [EventOnAmountChangedBroadcast, removeAllocated, UResource.Free]
      · simp [EventOnAmountChangedBroadcast, removeAllocated]
      · intro hne; exact absurd hn hne
      · intro _
        refine ⟨hn, hdiff, ?_, ?_⟩
        · intro hf; cases hf
        · intro _
          refine ⟨rfl, ?_⟩
          simp [EventOnAmountChangedBroadcast, removeAllocated]
  · refine ⟨_, FreeResource_counter s a hv hn, ?_, ?_, rfl, ?_, ?_⟩
    · simp [EventOnAmountChangedBroadcast, removeAllocated, UResource.Free]
    · simp [EventOnAmountChangedBroadcast, removeAllocated]
    · intro _
      refine ⟨rfl, hpred, rfl, ?_⟩
      simp [EventOnAmountChangedBroadcast, removeAllocated]
    · intro hz; exact absurd hz hn

/-- The witness of amended C6, on resources that are allocated.  On the deferred sink of
Scenario B after the allocation of resource 1, `FreeResource` takes the counter from 1 to 0 and
leaves the amount; on the immediate sink of Scenario A after the allocation of resource 1, it
takes the amount from 2 to 0.  Both mark resource 1 free and empty the allocation set. -/
theorem FreeResource_spec_witness :
    (scenarioBOne.bPendingKill = false
        ∧ (scenarioBOne.Resources 1).Allocation = some (0, 0)
        ∧ scenarioBOne.AllocatedResources = {some 1}
        ∧ scenarioBOne.IncrementsThisTurn = 1
        ∧ ∃ t : UResourceSink, FreeResource scenarioBOne (some 1) = some t
            ∧ (t.Resources 1).Allocation = none
            ∧ t.AllocatedResources = ∅
            ∧ t.IncrementsThisTurn.toInt = 1 - 1
            ∧ GetAllocationAmount t = GetAllocationAmount scenarioBOne)
      ∧ (scenarioAOne.bPendingKill = false
        ∧ (scenarioAOne.Resources 1).Allocation = some (0, 0)
        ∧ scenarioAOne.AllocatedResources = {some 1}
        ∧ scenarioAOne.IncrementsThisTurn = 0
        ∧ GetAllocationAmount scenarioAOne = 2
        ∧ ∃ t : UResourceSink, FreeResource scenarioAOne (some 1) = some t
            ∧ (t.Resources 1).Allocation = none
            ∧ t.AllocatedResources = ∅
            ∧ t.IncrementsThisTurn = 0
            ∧ (GetAllocationAmount t).toInt = 2 - 2) := by
  obtain ⟨t, h1, h2, -, h4, h5, -⟩ := FreeResource_spec scenarioBOne 1 rfl
  obtain ⟨u, k1, k2, -, k4, -, k6⟩ := FreeResource_spec scenarioAOne 1 rfl
  have hB : scenarioBOne.IncrementsThisTurn ≠ 0 := by decide
  refine ⟨⟨rfl, rfl, by decide, by decide, t, h1, h2, h4.trans (by decide),
      (h5 hB).2.1 (by decide), (h5 hB).2.2.1⟩,
    ⟨rfl, rfl, by decide, by decide, by decide, u, k1, k2, k4.trans (by decide),
      (k6 rfl).1, ?_⟩⟩
  rw [((k6 rfl).2.2.1 rfl).1]
  exact (k6 rfl).2.1 (by decide)

/-! ## AllocateResource followed by FreeResource -/

/-- C7, as stated, fails: `AllocateResource(r)` followed at once by `FreeResource(r)` does not
always restore the amount and the allocation set.  (1) On the full sink of Scenario A the
allocation of resource 3 is rejected and the free still takes the amount from 4 to 2.
(2) Resource 1 is already allocated: the free empties the set that held it.  (3) Immediate mode
with a counter of 1: the free takes back the counter, the amount stays at 2 instead of 0.
(4) The owner is not valid: the free skips the push, the amount stays at 2.  (5) The sink is
not valid: the free does no accounting, the amount stays at 2.  (6) Deferred mode with a
counter of -1: the allocation brings the counter to 0 and the free takes the amount to -2. -/
theorem allocateThenFree_not_restored :
    (∃ t : UResourceSink, allocateThenFree scenarioAFull (some 3) false = some t
        ∧ GetAllocationAmount scenarioAFull = 4 ∧ GetAllocationAmount t = 2)
      ∧ (∃ t : UResourceSink, allocateThenFree scenarioAOne (some 1) false = some t
        ∧ scenarioAOne.AllocatedResources = {some 1} ∧ t.AllocatedResources = ∅)
      ∧ (∃ t : UResourceSink,
          allocateThenFree { scenarioA with IncrementsThisTurn := 1 } (some 1) false = some t
        ∧ GetAllocationAmount { scenarioA with IncrementsThisTurn := 1 } = 0
        ∧ GetAllocationAmount t = 2)
      ∧ (∃ t : UResourceSink,
          allocateThenFree { scenarioA with bOwnerValid := false } (some 1) false = some t
        ∧ GetAllocationAmount { scenarioA with bOwnerValid := false } = 0
        ∧ GetAllocationAmount t = 2)
      ∧ (∃ t : UResourceSink,
          allocateThenFree { scenarioA with bPendingKill := true } (some 1) false = some t
        ∧ GetAllocationAmount { scenarioA with bPendingKill := true } = 0
        ∧ GetAllocationAmount t = 2)
      ∧ (∃ t : UResourceSink,
          allocateThenFree { scenarioB with IncrementsThisTurn := -1 } (some 1) false = some t
        ∧ GetAllocationAmount { scenarioB with IncrementsThisTurn := -1 } = 0
        ∧ GetAllocationAmount t = -2) :=
  ⟨⟨_, rfl, rfl, rfl⟩, ⟨_, rfl, by decide, by decide⟩, ⟨_, rfl, rfl, rfl⟩, ⟨_, rfl, rfl, rfl⟩,
    ⟨_, rfl, rfl, rfl⟩, ⟨_, rfl, rfl, rfl⟩⟩

/-- C7, amended: when the resource is not in the allocation set and the non-forced
`AllocateResource` returns true, the `FreeResource` that follows restores the amount and the
allocation set, provided that in deferred mode `IncrementsThisTurn` was not negative, and that
in immediate mode `IncrementsThisTurn` was 0 and the sink and its owner are valid. -/
theorem allocateThenFree_restores (s s1 : UResourceSink) (r : Option Nat)
    (hnew : r ∉ s.AllocatedResources)
    (hok : AllocateResource s r false = some (true, s1))
    (hdef : s.Data.bDeferredIncrement = true → 0 ≤ s.IncrementsThisTurn)
    (himm : s.Data.bDeferredIncrement = false →
      s.IncrementsThisTurn = 0 ∧ s.bPendingKill = false ∧ s.bOwnerValid = true) :
    ∃ t : UResourceSink, FreeResource s1 r = some t
      ∧ allocateThenFree s r false = some t
      ∧ GetAllocationAmount t = GetAllocationAmount s
      ∧ t.AllocatedResources = s.AllocatedResources := by
  obtain ⟨a, rfl, hc⟩ := AllocateResource_true_inv s s1 r hok
  have hset : (insert (some a) s.AllocatedResources).erase (some a) = s.AllocatedResources :=
    Finset.erase_insert hnew
  have hbind : ∀ t, FreeResource s1 (some a) = some t →
      allocateThenFree s (some a) false = some t := by
    intro t ht
    simp [allocateThenFree, hok, ht]
  cases hd : s.Data.bDeferredIncrement with
  | true =>
    rw [AllocateResource_eq_of_deferred s a hc hd] at hok
    simp only [Option.some.injEq, Prod.mk.injEq, true_and] at hok
    have h0 : s.IncrementsThisTurn + 1 ≠ 0 := CInt.add_one_ne_zero _ (hdef hd)
    cases hv : s.bPendingKill with
    | true =>
      have hv1 : s1.bPendingKill = true := by
        rw [← hok]; simpa [EventOnAmountChangedBroadcast, addAllocated] using hv
      refine ⟨_, FreeResource_pending s1 a hv1, hbind _ (FreeResource_pending s1 a hv1), ?_, ?_⟩
      · rw [← hok]; simp [removeAllocated, EventOnAmountChangedBroadcast, addAllocated,
          GetAllocationAmount]
      · rw [← hok]; simpa [removeAllocated, EventOnAmountChangedBroadcast, addAllocated]
          using hset
    | false =>
      have hv1 : s1.bPendingKill = false := by
        rw [← hok]; simpa [EventOnAmountChangedBroadcast, addAllocated] using hv
      have hn1 : s1.IncrementsThisTurn ≠ 0 := by
        rw [← hok]; simpa [EventOnAmountChangedBroadcast, addAllocated] using h0
      refine ⟨_, FreeResource_counter s1 a hv1 hn1,
        hbind _ (FreeResource_counter s1 a hv1 hn1), ?_, ?_⟩
      · rw [← hok]; simp [removeAllocated, EventOnAmountChangedBroadcast, addAllocated,
          GetAllocationAmount]
      · rw [← hok]; simpa [removeAllocated, EventOnAmountChangedBroadcast, addAllocated]
          using hset
  | false =>
    obtain ⟨hz, hv, ho⟩ := himm hd
    rw [AllocateResource_eq_of_immediate s a hc hd] at hok
    simp only [Option.some.injEq, Prod.mk.injEq, true_and] at hok
    have hv1 : s1.bPendingKill = false := by
      rw [← hok]
      simpa [EventOnAmountChangedBroadcast, OnAmountChangedExecute, addAllocated] using hv
    have hn1 : s1.IncrementsThisTurn = 0 := by
      rw [← hok]
      simpa [EventOnAmountChangedBroadcast, OnAmountChangedExecute, addAllocated] using hz
    have ho1 : s1.bOwnerValid = true := by
      rw [← hok]
      simpa [EventOnAmountChangedBroadcast, OnAmountChangedExecute, addAllocated] using ho
    refine ⟨_, FreeResource_amount s1 a hv1 hn1 ho1,
      hbind _ (FreeResource_amount s1 a hv1 hn1 ho1), ?_, ?_⟩
    · rw [← hok]; simp [removeAllocated, EventOnAmountChangedBroadcast, OnAmountChangedExecute,
        addAllocated, GetAllocationAmount, CInt.add_sub_cancel]
    · rw [← hok]; simpa [removeAllocated, EventOnAmountChangedBroadcast, OnAmountChangedExecute,
        addAllocated] using hset

/-- The witness of amended C7: resource 1 on the fresh sinks of Scenario A and Scenario B. -/
theorem allocateThenFree_restores_witness :
    (∃ t : UResourceSink, allocateThenFree scenarioA (some 1) false = some t
        ∧ GetAllocationAmount t = 0 ∧ t.AllocatedResources = ∅)
      ∧ (∃ t : UResourceSink, allocateThenFree scenarioB (some 1) false = some t
        ∧ GetAllocationAmount t = 0 ∧ t.AllocatedResources = ∅) := by
  obtain ⟨t, -, h1, h2, h3⟩ := allocateThenFree_restores scenarioA _ (some 1)
    (by decide) rfl (by decide) (by decide)
  obtain ⟨u, -, k1, k2, k3⟩ := allocateThenFree_restores scenarioB _ (some 1)
    (by decide) rfl (by decide) (by decide)
  exact ⟨⟨t, h1, h2, h3⟩, ⟨u, k1, k2, k3⟩⟩

/-! ## The total cap -/

/-- A non-forced `AllocateResource` that returns true keeps the configuration and adds the
resource to the allocation set. -/
theorem AllocateResource_true_set (s t : UResourceSink) (r : Option Nat)
    (h : AllocateResource s r false = some (true, t)) :
    t.Data = s.Data ∧ t.AllocatedResources = insert r s.AllocatedResources
      ∧ CanAllocateResource s r = true := by
  obtain ⟨a, rfl, hc⟩ := AllocateResource_true_inv s t r h
  cases hd : s.Data.bDeferredIncrement with
  | true =>
    rw [AllocateResource_eq_of_deferred s a hc hd] at h
    simp only [Option.some.injEq, Prod.mk.injEq, true_and] at h
    subst h
    exact ⟨rfl, rfl, hc⟩
  | false =>
    rw [AllocateResource_eq_of_immediate s a hc hd] at h
    simp only [Option.some.injEq, Prod.mk.injEq, true_and] at h
    subst h
    exact ⟨rfl, rfl, hc⟩

/-- The configuration and the allocation set after a `FreeResource`. -/
theorem FreeResource_set (s t : UResourceSink) (r : Option Nat)
    (h : FreeResource s r = some t) :
    t.Data = s.Data ∧ t.AllocatedResources = s.AllocatedResources.erase r := by
  cases r with
  | none => simp [FreeResource_null] at h
  | some a =>
    cases hv : s.bPendingKill with
    | true =>
      rw [FreeResource_pending s a hv] at h
      simp only [Option.some.injEq] at h
      subst h
      exact ⟨rfl, rfl⟩
    | false =>
      by_cases hn : s.IncrementsThisTurn = 0
      · cases ho : s.bOwnerValid with
        | true =>
          rw [FreeResource_amount s a hv hn ho] at h
          simp only [Option.some.injEq] at h
          subst h
          exact ⟨rfl, rfl⟩
        | false =>
          rw [FreeResource_amount_no_owner s a hv hn ho] at h
          simp only [Option.some.injEq] at h
          subst h
          exact ⟨rfl, rfl⟩
      · rw [FreeResource_counter s a hv hn] at h
        simp only [Option.some.injEq] at h
        subst h
        exact ⟨rfl, rfl⟩

/-- The configuration and the allocation set are not touched by `ReceiveEffectTrigger`. -/
theorem ReceiveEffectTrigger_set (s : UResourceSink) (t : ETileEffectTriggerType)
    (Triggerer : Option Nat) (ls : Finset (Int × Int)) :
    (ReceiveEffectTrigger s t Triggerer ls).Data = s.Data
      ∧ (ReceiveEffectTrigger s t Triggerer ls).AllocatedResources = s.AllocatedResources := by
  unfold ReceiveEffectTrigger
  split <;> exact ⟨rfl, rfl⟩

/-- One call that is not a forced allocation keeps the configuration and keeps the allocation
set within a total cap that it was within. -/
theorem call_preserves_cap (s t : UResourceSink) (c : SinkCall)
    (hnf : c.bForced = false) (hcall : call s c = some t)
    (hinv : (s.AllocatedResources.card : Int) ≤ s.Data.MaxIncrements)
    (hcap : s.Data.bHasMaxIncrement = true) :
    t.Data = s.Data ∧ (t.AllocatedResources.card : Int) ≤ t.Data.MaxIncrements := by
  cases c with
  | Allocate r f =>
    simp only [SinkCall.bForced] at hnf
    subst hnf
    simp only [call, Option.map_eq_some', Prod.exists, exists_eq_right] at hcall
    obtain ⟨b, hb⟩ := hcall
    cases b with
    | false =>
      have := (AllocateResource_false_inv s t r hb).1
      subst this
      exact ⟨rfl, hinv⟩
    | true =>
      obtain ⟨hdata, hset, hc⟩ := AllocateResource_true_set s t r hb
      refine ⟨hdata, ?_⟩
      have hlt : (s.AllocatedResources.card : Int) < s.Data.MaxIncrements :=
        CanAllocateResource_below_cap s r hcap hc
      have hle : (insert r s.AllocatedResources).card ≤ s.AllocatedResources.card + 1 :=
        Finset.card_insert_le r s.AllocatedResources
      rw [hdata, hset]
      omega
  | Free r =>
    simp only [call] at hcall
    obtain ⟨hdata, hset⟩ := FreeResource_set s t r hcall
    refine ⟨hdata, ?_⟩
    have hle : (s.AllocatedResources.erase r).card ≤ s.AllocatedResources.card :=
      Finset.card_erase_le
    rw [hdata, hset]
    omega
  | Trigger ty tr ls =>
    simp only [call, Option.some.injEq] at hcall
    subst hcall
    obtain ⟨hdata, hset⟩ := ReceiveEffectTrigger_set s ty tr ls
    rw [hdata, hset]
    exact ⟨rfl, hinv⟩

/-- A sequence of calls without forced allocation keeps the configuration and keeps the
allocation set within a total cap that it was within. -/
theorem calls_preserve_cap (cs : List SinkCall) :
    ∀ (s t : UResourceSink), (∀ c ∈ cs, c.bForced = false) → calls s cs = some t →
      (s.AllocatedResources.card : Int) ≤ s.Data.MaxIncrements →
      s.Data.bHasMaxIncrement = true →
      t.Data = s.Data ∧ (t.AllocatedResources.card : Int) ≤ t.Data.MaxIncrements := by
  induction cs with
  | nil =>
    intro s t _ h hinv _
    simp only [calls, Option.some.injEq] at h
    subst h
    exact ⟨rfl, hinv⟩
  | cons c cs ih =>
    intro s t hnf h hinv hcap
    simp only [calls, Option.bind_eq_some] at h
    obtain ⟨s1, hs1, hrest⟩ := h
    obtain ⟨hd1, hi1⟩ :=
      call_preserves_cap s s1 c (hnf c (List.mem_cons_self c cs)) hs1 hinv hcap
    obtain ⟨hd2, hi2⟩ := ih s1 t (fun d hd => hnf d (List.mem_cons_of_mem c hd)) hrest hi1
      (by rw [hd1]; exact hcap)
    exact ⟨hd2.trans hd1, hi2⟩

/-- C9, as stated, fails.  (1) From the fresh sink of Scenario A (total cap 2, nothing
allocated) three forced allocations are all carried out and the allocation set holds three
resources.  (2) With a negative `MaxIncrements` the empty allocation set is already above
the cap. -/
theorem forced_allocation_exceeds_cap :
    (∃ t : UResourceSink,
        calls scenarioA [SinkCall.Allocate (some 1) true, SinkCall.Allocate (some 2) true,
          SinkCall.Allocate (some 3) true] = some t
        ∧ scenarioA.Data.bHasMaxIncrement = true
        ∧ scenarioA.AllocatedResources = ∅
        ∧ t.Data.MaxIncrements = 2
        ∧ t.AllocatedResources.card = 3)
      ∧ (∃ t : UResourceSink,
          calls (freshSink { scenarioData false with MaxIncrements := -1 }) [] = some t
        ∧ t.Data.bHasMaxIncrement = true
        ∧ t.Data.MaxIncrements = -1
        ∧ t.AllocatedResources.card = 0) :=
  ⟨⟨_, rfl, rfl, rfl, rfl, by decide⟩, ⟨_, rfl, rfl, rfl, by decide⟩⟩

/-- C9, amended: for a sink with a total cap configured and a non-negative `MaxIncrements`,
starting from an empty allocation set, the number of allocated resources is at most
`MaxIncrements` after any sequence of non-forced `AllocateResource`, `FreeResource` and
`ReceiveEffectTrigger` calls, and the configuration is the one the sink started with. -/
theorem allocated_within_cap (s t : UResourceSink) (cs : List SinkCall)
    (hcap : s.Data.bHasMaxIncrement = true)
    (hnonneg : 0 ≤ s.Data.MaxIncrements)
    (hempty : s.AllocatedResources = ∅)
    (hnf : ∀ c ∈ cs, c.bForced = false)
    (hrun : calls s cs = some t) :
    (t.AllocatedResources.card : Int) ≤ t.Data.MaxIncrements ∧ t.Data = s.Data := by
  have hinv : (s.AllocatedResources.card : Int) ≤ s.Data.MaxIncrements := by
    rw [hempty]; simpa using hnonneg
  obtain ⟨h1, h2⟩ := calls_preserve_cap cs s t hnf hrun hinv hcap
  exact ⟨h2, h1⟩

/-- The witness of amended C9: on the sink of Scenario A, three non-forced allocations (the
third refused), a free, a trigger and one more allocation leave two resources allocated. -/
theorem allocated_within_cap_witness :
    ∃ t : UResourceSink,
      calls scenarioA
          [SinkCall.Allocate (some 1) false, SinkCall.Allocate (some 2) false,
           SinkCall.Allocate (some 3) false, SinkCall.Free (some 1),
           SinkCall.Trigger ETileEffectTriggerType.PlantActive none ∅,
           SinkCall.Allocate (some 3) false] = some t
        ∧ t.AllocatedResources.card = 2
        ∧ (t.AllocatedResources.card : Int) ≤ t.Data.MaxIncrements :=
  ⟨_, rfl, by decide,
    (allocated_within_cap scenarioA _
      [SinkCall.Allocate (some 1) false, SinkCall.Allocate (some 2) false,
       SinkCall.Allocate (some 3) false, SinkCall.Free (some 1),
       SinkCall.Trigger ETileEffectTriggerType.PlantActive none ∅,
       SinkCall.Allocate (some 3) false]
      rfl (by decide) rfl (by simp [SinkCall.bForced]) rfl).1⟩

/-! ## FreeResource on a resource that is not allocated -/

/-- C10, as stated, fails: resource 7 is not in the allocation set.  (1) On the fresh sink of
Scenario A, `FreeResource` takes the amount from 0 to -2.  (2) On the sink of Scenario B with
a counter of 1, `FreeResource` takes the counter to 0.  Neither call is refused. -/
theorem unallocated_FreeResource_changes :
    (∃ t : UResourceSink, FreeResource scenarioA (some 7) = some t
        ∧ some 7 ∉ scenarioA.AllocatedResources
        ∧ GetAllocationAmount scenarioA = 0
        ∧ GetAllocationAmount t = -2
        ∧ t.Calls = scenarioA.Calls ++
            [DelegateCall.OnAmountChanged (-2), DelegateCall.EventOnAmountChanged (-2)])
      ∧ (∃ t : UResourceSink,
          FreeResource { scenarioB with IncrementsThisTurn := 1 } (some 7) = some t
        ∧ some 7 ∉ scenarioB.AllocatedResources
        ∧ t.IncrementsThisTurn = 0) :=
  ⟨⟨_, rfl, by decide, rfl, rfl, rfl⟩, ⟨_, rfl, by decide, rfl⟩⟩

/-- C10, amended: for a resource that is not in the allocation set, `FreeResource` reports no
error, leaves the allocation set as it was and marks the resource free, and it does the
accounting it does for an allocated resource, in `int` arithmetic.  (a) On a sink that is not
valid, `IncrementsThisTurn`, the amount and the delegate calls are unchanged.  (b) On a valid
sink with `IncrementsThisTurn` not 0, `IncrementsThisTurn` becomes `IncrementsThisTurn - 1`,
the amount is unchanged and the only delegate call is the broadcast of the amount.  (c) On a
valid sink with `IncrementsThisTurn` 0 and a valid owner, `IncrementsThisTurn` stays 0 and the
amount becomes the amount minus `IncrementPerResource`, pushed and then broadcast.  (d) On a
valid sink with `IncrementsThisTurn` 0 and an owner that is not valid, `IncrementsThisTurn`
stays 0, the amount is unchanged and the only delegate call is the broadcast of the amount
minus `IncrementPerResource`. -/
theorem FreeResource_not_allocated (s : UResourceSink) (a : Nat)
    (hnot : some a ∉ s.AllocatedResources) :
    ∃ t : UResourceSink, FreeResource s (some a) = some t
      ∧ t.AllocatedResources = s.AllocatedResources
      ∧ (t.Resources a).Allocation = none
      ∧ (s.bPendingKill = true →
          t.IncrementsThisTurn = s.IncrementsThisTurn
            ∧ GetAllocationAmount t = GetAllocationAmount s ∧ t.Calls = s.Calls)
      ∧ (s.bPendingKill = false → s.IncrementsThisTurn ≠ 0 →
          t.IncrementsThisTurn = s.IncrementsThisTurn - 1
            ∧ GetAllocationAmount t = GetAllocationAmount s
            ∧ t.Calls = s.Calls ++ [DelegateCall.EventOnAmountChanged (GetAllocationAmount s)])
      ∧ (s.bPendingKill = false → s.IncrementsThisTurn = 0 → s.bOwnerValid = true →
          t.IncrementsThisTurn = 0
            ∧ GetAllocationAmount t = GetAllocationAmount s - s.Data.IncrementPerResource
            ∧ t.Calls = s.Calls ++
                [DelegateCall.OnAmountChanged
                   (GetAllocationAmount s - s.Data.IncrementPerResource),
                 DelegateCall.EventOnAmountChanged
                   (GetAllocationAmount s - s.Data.IncrementPerResource)])
      ∧ (s.bPendingKill = false → s.IncrementsThisTurn = 0 → s.bOwnerValid = false →
          t.IncrementsThisTurn = 0
            ∧ GetAllocationAmount t = GetAllocationAmount s
            ∧ t.Calls = s.Calls ++
                [DelegateCall.EventOnAmountChanged
                   (GetAllocationAmount s - s.Data.IncrementPerResource)]) := by
  have hset : s.AllocatedResources.erase (some a) = s.AllocatedResources :=
    Finset.erase_eq_of_not_mem hnot
  cases hv : s.bPendingKill with
  | true =>
    refine ⟨_, FreeResource_pending s a hv, ?_⟩
    simp [removeAllocated, UResource.Free, GetAllocationAmount, hset]
  | false =>
    by_cases hn : s.IncrementsThisTurn = 0
    · cases ho : s.bOwnerValid with
      | true =>
        refine ⟨_, FreeResource_amount s a hv hn ho, ?_⟩
        simp [EventOnAmountChangedBroadcast, OnAmountChangedExecute, removeAllocated,
          UResource.Free, GetAllocationAmount, hn, hset]
      | false =>
        refine ⟨_, FreeResource_amount_no_owner s a hv hn ho, ?_⟩
        simp [EventOnAmountChangedBroadcast, removeAllocated, UResource.Free,
          GetAllocationAmount, hn, hset]
    · refine ⟨_, FreeResource_counter s a hv hn, ?_⟩
      simp [EventOnAmountChangedBroadcast, removeAllocated, UResource.Free,
        GetAllocationAmount, hn, hset]

/-- The witness of amended C10: resource 7, which no sink holds, on the full sink of
Scenario A (case c) and on the sink of Scenario B with one pending increment (case b). -/
theorem FreeResource_not_allocated_witness :
    (some 7 ∉ scenarioAFull.AllocatedResources
        ∧ ∃ t : UResourceSink, FreeResource scenarioAFull (some 7) = some t
            ∧ t.AllocatedResources = scenarioAFull.AllocatedResources
            ∧ t.IncrementsThisTurn = 0
            ∧ GetAllocationAmount t = 4 - 2)
      ∧ (some 7 ∉ scenarioBOne.AllocatedResources
        ∧ ∃ t : UResourceSink, FreeResource scenarioBOne (some 7) = some t
            ∧ t.AllocatedResources = scenarioBOne.AllocatedResources
            ∧ t.IncrementsThisTurn = 1 - 1
            ∧ GetAllocationAmount t = GetAllocationAmount scenarioBOne) := by
  obtain ⟨t, h1, h2, -, -, -, h5, -⟩ := FreeResource_not_allocated scenarioAFull 7 (by decide)
  obtain ⟨u, k1, k2, -, -, k4, -, -⟩ := FreeResource_not_allocated scenarioBOne 7 (by decide)
  exact ⟨⟨by decide, t, h1, h2, (h5 rfl rfl rfl).1, (h5 rfl rfl rfl).2.1⟩,
    ⟨by decide, u, k1, k2, (k4 rfl (by decide)).1, (k4 rfl (by decide)).2.1⟩⟩

/-! ## Forced allocation -/

/-- C11: `AllocateResource` with the force flag set returns true, marks the resource allocated
to this sink and adds it to the allocation set, and does nothing else: the amount,
`IncrementsThisTurn`, the configuration and the list of delegate calls are as before (neither
delegate fires), in deferred and in immediate mode and whatever `CanAllocateResource` says. -/
theorem AllocateResource_force_bypass (s : UResourceSink) (a : Nat) :
    ∃ t : UResourceSink, AllocateResource s (some a) true = some (true, t)
      ∧ (t.Resources a).Allocation = some (s.This, s.Data.AllocationType)
      ∧ some a ∈ t.AllocatedResources
      ∧ t.AllocatedResources = insert (some a) s.AllocatedResources
      ∧ GetAllocationAmount t = GetAllocationAmount s
      ∧ t.IncrementsThisTurn = s.IncrementsThisTurn
      ∧ t.Calls = s.Calls
      ∧ t.Data = s.Data
      ∧ ∀ x, x ≠ a → t.Resources x = s.Resources x := by
  refine ⟨_, AllocateResource_forced s a, by simp [addAllocated, UResource.Allocate],
    by simp [addAllocated], rfl, rfl, rfl, rfl, rfl, ?_⟩
  intro x hx
  simp [addAllocated, hx]

/-! ## UApplyField -/

open UApplyField

theorem throughFirst_congr {α : Type} (p q : α → Bool) (l : List α)
    (h : ∀ a ∈ l, p a = q a) : throughFirst p l = throughFirst q l := by
  induction l with
  | nil => rfl
  | cons a rest ih =>
    have ha : p a = q a := h a (List.mem_cons_self a rest)
    have hr : throughFirst p rest = throughFirst q rest :=
      ih fun b hb => h b (List.mem_cons_of_mem a hb)
    simp [throughFirst, ha, hr]

theorem throughFirst_subset {α : Type} (p : α → Bool) (l : List α) :
    ∀ a ∈ throughFirst p l, a ∈ l := by
  induction l with
  | nil => intro a ha; simp [throughFirst] at ha
  | cons b rest ih =>
    intro a ha
    simp only [throughFirst] at ha
    split at ha
    · simp only [List.mem_singleton] at ha
      subst ha
      exact List.mem_cons_self a rest
    · rcases List.mem_cons.mp ha with h | h
      · subst h; exact List.mem_cons_self a rest
      · exact List.mem_cons_of_mem b (ih a h)

theorem find_congr {α : Type} (p q : α → Bool) (l : List α)
    (h : ∀ a ∈ l, p a = q a) : l.find? p = l.find? q := by
  induction l with
  | nil => rfl
  | cons a rest ih =>
    have ha : p a = q a := h a (List.mem_cons_self a rest)
    have hr : rest.find? p = rest.find? q := ih fun b hb => h b (List.mem_cons_of_mem a hb)
    simp [List.find?, ha, hr]

theorem IsValid_congr (w v : UWorld) (j : Nat) (h : v.GroundPlanes[j]? = w.GroundPlanes[j]?) :
    v.IsValid (some j) = w.IsValid (some j) := by
  simp [UWorld.IsValid, h]

theorem accepts_congr (w v : UWorld) (F : FieldMember) (FT : EFieldType)
    (L : Finset (Int × Int)) (j : Nat) (h : v.GroundPlanes[j]? = w.GroundPlanes[j]?) :
    v.accepts F FT L j = w.accepts F FT L j := by
  simp [UWorld.accepts, h]

theorem IsValid_some (w : UWorld) (i : Nat) (h : w.IsValid (some i) = true) :
    ∃ pl, w.GroundPlanes[i]? = some pl := by
  cases hp : w.GroundPlanes[i]? with
  | none => simp [UWorld.IsValid, hp] at h
  | some pl => exact ⟨pl, rfl⟩

theorem callMember_eq (F : FieldMember) (m : EFieldMember) (w : UWorld) (i : Nat)
    (FT : EFieldType) (L : Finset (Int × Int)) (pl : AGroundPlane)
    (h : w.GroundPlanes[i]? = some pl) :
    callMember F m w i FT L
      = ((F pl FT L).1,
          { GroundPlanes := w.GroundPlanes.set i (F pl FT L).2
            FieldCalls := w.FieldCalls ++ [FieldCall.mk m i FT L] }) := by
  simp [callMember, h]

theorem callMember_result (F : FieldMember) (m : EFieldMember) (w : UWorld) (i : Nat)
    (FT : EFieldType) (L : Finset (Int × Int)) (h : w.IsValid (some i) = true) :
    (callMember F m w i FT L).1 = w.accepts F FT L i
      ∧ (callMember F m w i FT L).2.FieldCalls = w.FieldCalls ++ [FieldCall.mk m i FT L]
      ∧ (callMember F m w i FT L).2.GroundPlanes[i]?
          = (w.GroundPlanes[i]?).map (fun pl => (F pl FT L).2)
      ∧ ∀ j, j ≠ i →
          (callMember F m w i FT L).2.GroundPlanes[j]? = w.GroundPlanes[j]? := by
  obtain ⟨pl, hpl⟩ := IsValid_some w i h
  have hlt : i < w.GroundPlanes.length := by
    by_contra hge
    have : w.GroundPlanes[i]? = none := List.getElem?_eq_none (by omega)
    rw [this] at hpl; cases hpl
  rw [callMember_eq F m w i FT L pl hpl]
  refine ⟨by simp [UWorld.accepts, hpl], rfl, ?_, ?_⟩
  · simp [hpl, List.getElem?_set, hlt]
  · intro j hj
    simp [List.getElem?_set, Ne.symm hj]

/-- The loop over the actor iterator, started on addresses without repetition: the calls it
makes, the cache it leaves and the ground planes it leaves. -/
theorem probeGroundPlanes_spec (F : FieldMember) (m : EFieldMember) (FT : EFieldType)
    (L : Finset (Int × Int)) :
    ∀ (is : List Nat), is.Nodup → ∀ (c : TSet (Option Nat)) (w : UWorld),
      (probeGroundPlanes F m FT L is (c, w)).2.FieldCalls
          = w.FieldCalls ++
            (throughFirst (w.accepts F FT L) (w.validIn is)).map (fun i => FieldCall.mk m i FT L)
        ∧ (probeGroundPlanes F m FT L is (c, w)).1
          = (match (w.validIn is).find? (w.accepts F FT L) with
              | some i => c.Add (some i)
              | none => c)
        ∧ ∀ j, (probeGroundPlanes F m FT L is (c, w)).2.GroundPlanes[j]?
            = w.planeAfter F FT L (throughFirst (w.accepts F FT L) (w.validIn is)) j := by
  intro is
  induction is with
  | nil =>
    intro _ c w
    simp [probeGroundPlanes, UWorld.validIn, throughFirst, UWorld.planeAfter]
  | cons i rest ih =>
    intro hnd c w
    have hi : i ∉ rest := (List.nodup_cons.mp hnd).1
    have hrest : rest.Nodup := (List.nodup_cons.mp hnd).2
    cases hv : w.IsValid (some i) with
    | false =>
      have hfil : w.validIn (i :: rest) = w.validIn rest := by
        simp [UWorld.validIn, List.filter_cons, hv]
      have hstep : probeGroundPlanes F m FT L (i :: rest) (c, w)
          = probeGroundPlanes F m FT L rest (c, w) := by
        simp [probeGroundPlanes, hv]
      rw [hstep, hfil]
      exact ih hrest c w
    | true =>
      obtain ⟨hres, hcalls, hself, hother⟩ := callMember_result F m w i FT L hv
      have hfil : w.validIn (i :: rest) = i :: w.validIn rest := by
        simp [UWorld.validIn, List.filter_cons, hv]
      cases ha : w.accepts F FT L i with
      | true =>
        have hstep : probeGroundPlanes F m FT L (i :: rest) (c, w)
            = (c.Add (some i), (callMember F m w i FT L).2) := by
          simp [probeGroundPlanes, hv, hres, ha]
        rw [hstep, hfil]
        refine ⟨?_, ?_, ?_⟩
        · simp [throughFirst, ha, hcalls]
        · simp [List.find?, ha]
        · intro j
          by_cases hj : j = i
          · subst hj
            simp [throughFirst, ha, UWorld.planeAfter, hself]
          · simp [throughFirst, ha, UWorld.planeAfter, hj, hother j hj]
      | false =>
        have hstep : probeGroundPlanes F m FT L (i :: rest) (c, w)
            = probeGroundPlanes F m FT L rest (c, (callMember F m w i FT L).2) := by
          simp [probeGroundPlanes, hv, hres, ha]
        have hsame : ∀ j ∈ rest,
            (callMember F m w i FT L).2.GroundPlanes[j]? = w.GroundPlanes[j]? := by
          intro j hj
          exact hother j (fun h => hi (h ▸ hj))
        have hvalid : (callMember F m w i FT L).2.validIn rest = w.validIn rest := by
          unfold UWorld.validIn
          apply List.filter_congr
          intro j hj
          exact IsValid_congr w _ j (hsame j hj)
        have hsub : ∀ j ∈ w.validIn rest, j ∈ rest := by
          intro j hj
          exact (List.mem_filter.mp hj).1
        have hacc : ∀ j ∈ w.validIn rest,
            (callMember F m w i FT L).2.accepts F FT L j = w.accepts F FT L j := by
          intro j hj
          exact accepts_congr w _ F FT L j (hsame j (hsub j hj))
        obtain ⟨h1, h2, h3⟩ := ih hrest c (callMember F m w i FT L).2
        rw [hvalid, throughFirst_congr _ _ _ hacc] at h1 h3
        rw [hvalid, find_congr _ _ _ hacc] at h2
        rw [hstep, hfil]
        refine ⟨?_, ?_, ?_⟩
        · rw [h1, hcalls]
          simp [throughFirst, ha]
        · rw [h2]
          simp [List.find?, ha]
        · intro j
          rw [h3 j]
          have hnotin : i ∉ throughFirst (w.accepts F FT L) (w.validIn rest) :=
            fun h => hi (hsub i (throughFirst_subset _ _ i h))
          by_cases hj : j = i
          · subst hj
            simp [throughFirst, ha, UWorld.planeAfter, hnotin, hself]
          · simp [throughFirst, ha, UWorld.planeAfter, hj, hother j hj]

/-- The loop over the cache, started on pointers without repetition: the calls it makes and
the ground planes it leaves. -/
theorem eachGroundPlane_spec (F : FieldMember) (m : EFieldMember) (FT : EFieldType)
    (L : Finset (Int × Int)) :
    ∀ (ps : List (Option Nat)), ps.Nodup → ∀ (w : UWorld),
      (eachGroundPlane F m FT L ps w).FieldCalls
          = w.FieldCalls ++ (w.validAmong ps).map (fun i => FieldCall.mk m i FT L)
        ∧ ∀ j, (eachGroundPlane F m FT L ps w).GroundPlanes[j]?
            = w.planeAfter F FT L (w.validAmong ps) j := by
  intro ps
  induction ps with
  | nil =>
    intro _ w
    simp [eachGroundPlane, UWorld.validAmong, UWorld.planeAfter]
  | cons p rest ih =>
    intro hnd w
    have hp : p ∉ rest := (List.nodup_cons.mp hnd).1
    have hrest : rest.Nodup := (List.nodup_cons.mp hnd).2
    cases p with
    | none =>
      have hfil : w.validAmong (none :: rest) = w.validAmong rest := by
        simp [UWorld.validAmong, UWorld.IsValid]
      rw [hfil]
      simpa [eachGroundPlane] using ih hrest w
    | some i =>
      cases hv : w.IsValid (some i) with
      | false =>
        have hfil : w.validAmong (some i :: rest) = w.validAmong rest := by
          simp [UWorld.validAmong, hv]
        rw [hfil]
        simpa [eachGroundPlane, hv] using ih hrest w
      | true =>
        obtain ⟨-, hcalls, hself, hother⟩ := callMember_result F m w i FT L hv
        have hfil : w.validAmong (some i :: rest) = i :: w.validAmong rest := by
          simp [UWorld.validAmong, hv]
        have hstep : eachGroundPlane F m FT L (some i :: rest) w
            = eachGroundPlane F m FT L rest (callMember F m w i FT L).2 := by
          simp [eachGroundPlane, hv]
        have hvalid : (callMember F m w i FT L).2.validAmong rest = w.validAmong rest := by
          unfold UWorld.validAmong
          apply List.filterMap_congr
          intro q hq
          cases q with
          | none => simp [UWorld.IsValid]
          | some j =>
            have hji : j ≠ i := fun h => hp (h ▸ hq)
            rw [IsValid_congr w _ j (hother j hji)]
        have hnotin : i ∉ w.validAmong rest := by
          intro h
          obtain ⟨q, hq, hqi⟩ := List.mem_filterMap.mp h
          split at hqi
          · subst hqi; exact hp hq
          · cases hqi
        obtain ⟨h1, h3⟩ := ih hrest (callMember F m w i FT L).2
        rw [hvalid] at h1 h3
        rw [hstep, hfil]
        refine ⟨?_, ?_⟩
        · rw [h1, hcalls]
          simp
        · intro j
          rw [h3 j]
          by_cases hj : j = i
          · subst hj
            simp [UWorld.planeAfter, hnotin, hself]
          · simp [UWorld.planeAfter, hj, hother j hj]

theorem probeGroundPlanes_no_valid (F : FieldMember) (m : EFieldMember) (FT : EFieldType)
    (L : Finset (Int × Int)) (c : TSet (Option Nat)) (w : UWorld) :
    ∀ (is : List Nat), w.validIn is = [] → probeGroundPlanes F m FT L is (c, w) = (c, w) := by
  intro is
  induction is with
  | nil => intro _; rfl
  | cons i rest ih =>
    intro h
    cases hv : w.IsValid (some i) with
    | true => simp [UWorld.validIn, List.filter_cons, hv] at h
    | false =>
      have hrest : w.validIn rest = [] := by
        simpa [UWorld.validIn, List.filter_cons, hv] using h
      simp [probeGroundPlanes, hv, ih hrest]

theorem validAmong_nodup (w : UWorld) (ps : List (Option Nat)) (h : ps.Nodup) :
    (w.validAmong ps).Nodup := by
  unfold UWorld.validAmong
  apply List.Nodup.filterMap _ h
  intro p q i hp hq
  split at hp <;> split at hq
  · exact hp.trans hq.symm
  · cases hq
  · cases hp
  · cases hp

theorem mem_validAmong (w : UWorld) (ps : List (Option Nat)) (i : Nat) :
    i ∈ w.validAmong ps ↔ (some i ∈ ps ∧ w.IsValid (some i) = true) := by
  unfold UWorld.validAmong
  rw [List.mem_filterMap]
  constructor
  · rintro ⟨p, hp, hpi⟩
    split at hpi
    · subst hpi
      rename_i hv
      exact ⟨hp, hv⟩
    · cases hpi
  · rintro ⟨hp, hv⟩
    exact ⟨some i, hp, by simp [hv]⟩

theorem FieldCall_count (w : UWorld) (ps : List (Option Nat)) (h : ps.Nodup)
    (m : EFieldMember) (FT : EFieldType) (L : Finset (Int × Int)) (i : Nat) :
    ((w.validAmong ps).map (fun i => FieldCall.mk m i FT L)).count (FieldCall.mk m i FT L)
      = if some i ∈ ps ∧ w.IsValid (some i) = true then 1 else 0 := by
  have hinj : Function.Injective (fun i => FieldCall.mk m i FT L) := by
    intro a b hab
    simpa using hab
  have hnd : ((w.validAmong ps).map (fun i => FieldCall.mk m i FT L)).Nodup :=
    List.Nodup.map hinj (validAmong_nodup w ps h)
  rw [List.count_eq_of_nodup hnd]
  have hmem : FieldCall.mk m i FT L ∈ (w.validAmong ps).map (fun i => FieldCall.mk m i FT L)
      ↔ (some i ∈ ps ∧ w.IsValid (some i) = true) := by
    rw [List.mem_map_of_injective hinj]
    exact mem_validAmong w ps i
  by_cases hc : some i ∈ ps ∧ w.IsValid (some i) = true
  · rw [if_pos (hmem.mpr hc), if_pos hc]
  · rw [if_neg (fun h => hc (hmem.mp h)), if_neg hc]

/-- A function of the effect built from the two loops of ApplyField.cpp resolves the
propagator lazily. -/
theorem ResolvesLazily_of_loops (F : FieldMember) (m : EFieldMember)
    (run : UApplyField → UWorld → Finset (Int × Int) → Option Nat →
      Option (UApplyField × UWorld))
    (hrun : ∀ e w L tile, run e w L tile =
      if e.GroundPlanes.IsEmpty then
        match tile with
        | none => none
        | some _ =>
          some ({ e with GroundPlanes := (probeGroundPlanes F m e.FieldType L
                    (List.range w.GroundPlanes.length) (e.GroundPlanes, w)).1 },
                (probeGroundPlanes F m e.FieldType L
                    (List.range w.GroundPlanes.length) (e.GroundPlanes, w)).2)
      else
        some (e, eachGroundPlane F m e.FieldType L e.GroundPlanes.Elements w)) :
    ResolvesLazily F m run := by
  intro e w L
  constructor
  · intro hE tile
    have hempty : e.GroundPlanes.IsEmpty = true := by simp [TSet.IsEmpty, hE]
    obtain ⟨h1, h2, h3⟩ := probeGroundPlanes_spec F m e.FieldType L
      (List.range w.GroundPlanes.length) (List.nodup_range _) e.GroundPlanes w
    have hout : run e w L (some tile)
        = some ({ e with GroundPlanes := (probeGroundPlanes F m e.FieldType L
                    (List.range w.GroundPlanes.length) (e.GroundPlanes, w)).1 },
                (probeGroundPlanes F m e.FieldType L
                    (List.range w.GroundPlanes.length) (e.GroundPlanes, w)).2) := by
      rw [hrun, if_pos hempty]
    refine ⟨{ e with GroundPlanes := (probeGroundPlanes F m e.FieldType L
                (List.range w.GroundPlanes.length) (e.GroundPlanes, w)).1 },
      (probeGroundPlanes F m e.FieldType L
                (List.range w.GroundPlanes.length) (e.GroundPlanes, w)).2,
      hout, h1, ?_, rfl, h3, ?_, ?_⟩
    · show (probeGroundPlanes F m e.FieldType L (List.range w.GroundPlanes.length)
          (e.GroundPlanes, w)).1.Elements = _
      rw [h2]
      unfold UWorld.validGroundPlanes
      cases (w.validIn (List.range w.GroundPlanes.length)).find? (w.accepts F e.FieldType L) with
      | none => simpa using hE
      | some i => simp [TSet.Add, hE]
    · intro hnone
      have hfind : (w.validIn (List.range w.GroundPlanes.length)).find?
          (w.accepts F e.FieldType L) = none := by
        rw [List.find?_eq_none]
        intro i hi
        simpa using hnone i hi
      rw [hfind] at h2
      refine ⟨by rw [h2], ?_⟩
      intro hkeep
      apply List.ext_getElem?
      intro j
      rw [h3 j]
      unfold UWorld.planeAfter
      split
      · rename_i hj
        have hjv : j ∈ w.validGroundPlanes := throughFirst_subset _ _ j hj
        have hacc := hnone j hjv
        cases hpl : w.GroundPlanes[j]? with
        | none => rfl
        | some pl =>
          have hfalse : (F pl e.FieldType L).1 = false := by
            simpa [UWorld.accepts, hpl] using hacc
          simp [hkeep pl hfalse]
      · rfl
    · intro hno
      have hsame := probeGroundPlanes_no_valid F m e.FieldType L e.GroundPlanes w
        (List.range w.GroundPlanes.length) hno
      rw [hsame]
      exact ⟨rfl, rfl⟩
  · intro hE tile
    have hempty : e.GroundPlanes.IsEmpty = false := by
      cases hl : e.GroundPlanes.Elements with
      | nil => exact absurd hl hE
      | cons a l => simp [TSet.IsEmpty, hl]
    obtain ⟨h1, h3⟩ := eachGroundPlane_spec F m e.FieldType L e.GroundPlanes.Elements
      e.GroundPlanes.Distinct w
    refine ⟨_, by rw [hrun]; simp [hempty], h1, ?_, h3⟩
    intro i
    exact FieldCall_count w e.GroundPlanes.Elements e.GroundPlanes.Distinct m e.FieldType L i

/-- C12, as stated, fails: when no ground plane accepts, the call is not a no-op.  In a world
with two valid ground planes that do not own the locations, `AffectLocations` with an empty
cache leaves the cache empty but has called `ApplyField` on both planes, and with the
`ApplyField` of the spec, which increments the strength at each location, the protection
strength at (0, 0) has gone from 0 to 1 on both. -/
theorem AffectLocations_refused_not_noop :
    ∃ (e1 : UApplyField) (w1 : UWorld),
      AffectLocations AGroundPlane.ApplyField scenarioEffect scenarioRefusingWorld
          scenarioLocations (some 0) = some (e1, w1)
        ∧ scenarioEffect.GroundPlanes.Elements = []
        ∧ e1.GroundPlanes.Elements = []
        ∧ scenarioRefusingWorld.FieldCalls = []
        ∧ w1.FieldCalls =
            [FieldCall.mk EFieldMember.ApplyField 0 EFieldType.Protection scenarioLocations,
             FieldCall.mk EFieldMember.ApplyField 1 EFieldType.Protection scenarioLocations]
        ∧ scenarioRefusingWorld.GroundPlanes.map
            (fun pl => pl.Strength EFieldType.Protection (0, 0)) = [0, 0]
        ∧ w1.GroundPlanes.map (fun pl => pl.Strength EFieldType.Protection (0, 0)) = [1, 1] :=
  ⟨_, _, rfl, rfl, by decide, rfl, by decide, by decide, by decide⟩

/-- C12, amended: `AffectLocations` resolves the propagator lazily through `ApplyField`, and
`UnaffectLocations` does the same through `RemoveField`, on the same cache, whatever the bodies
of the two members of the ground plane are.  With an empty cache (and an affecter tile) the
member is called, with the field type of the effect and the given locations, on the valid
ground planes of the world in iteration order up to and including the first one that returns
true, that one is cached and no ground plane after it is touched.  When there is no valid
ground plane nothing changes.  When none returns true the cache stays empty and no error is
raised, but the member has been called on every valid ground plane, and the ground planes are
unchanged only if a call that returns false leaves its ground plane as it was.  With a
non-empty cache the member is called exactly once on each valid cached ground plane, on no
other, and the cache is unchanged. -/
theorem UApplyField_resolves_lazily (ApplyField RemoveField : FieldMember) :
    ResolvesLazily ApplyField EFieldMember.ApplyField (AffectLocations ApplyField)
      ∧ ResolvesLazily RemoveField EFieldMember.RemoveField (UnaffectLocations RemoveField) :=
  ⟨ResolvesLazily_of_loops _ _ _ (fun _ _ _ _ => rfl),
    ResolvesLazily_of_loops _ _ _ (fun _ _ _ _ => rfl)⟩

/-- The witness of amended C12 on the scenario world.  With the empty cache, `AffectLocations` calls
`ApplyField` on plane 1 (which refuses) and on plane 2 (which accepts), not on the invalid plane
0 and not on plane 3, and caches plane 2.  With plane 2 cached, `UnaffectLocations` calls
`RemoveField` on plane 2 only and keeps the cache. -/
theorem UApplyField_resolves_lazily_witness :
    (∃ (e1 : UApplyField) (w1 : UWorld),
        AffectLocations AGroundPlane.ApplyField scenarioEffect scenarioWorld scenarioLocations
            (some 0) = some (e1, w1)
          ∧ w1.FieldCalls =
              [FieldCall.mk EFieldMember.ApplyField 1 EFieldType.Protection scenarioLocations,
               FieldCall.mk EFieldMember.ApplyField 2 EFieldType.Protection scenarioLocations]
          ∧ e1.GroundPlanes.Elements = [some 2]
          ∧ w1.GroundPlanes[3]? = scenarioWorld.GroundPlanes[3]?)
      ∧ (∃ w1 : UWorld,
          UnaffectLocations AGroundPlane.RemoveField scenarioBoundEffect scenarioWorld
              scenarioLocations none = some (scenarioBoundEffect, w1)
            ∧ w1.FieldCalls =
                [FieldCall.mk EFieldMember.RemoveField 2 EFieldType.Protection
                  scenarioLocations]) := by
  obtain ⟨e1, w1, h, hc, he, -, hp, -, -⟩ :=
    ((UApplyField_resolves_lazily AGroundPlane.ApplyField AGroundPlane.RemoveField).1
      scenarioEffect scenarioWorld scenarioLocations).1 rfl 0
  obtain ⟨w2, k, kc, -, -⟩ :=
    ((UApplyField_resolves_lazily AGroundPlane.ApplyField AGroundPlane.RemoveField).2
      scenarioBoundEffect scenarioWorld scenarioLocations).2 (by decide) none
  refine ⟨⟨e1, w1, h, hc.trans (by decide), he.trans (by decide), (hp 3).trans ?_⟩,
    ⟨w2, k, kc.trans (by decide)⟩⟩
  have h3 : (3 : Nat) ∉ throughFirst
      (scenarioWorld.accepts AGroundPlane.ApplyField scenarioEffect.FieldType scenarioLocations)
      scenarioWorld.validGroundPlanes := by decide
  simp [UWorld.planeAfter, h3]


end Syrup
